import Mathlib

/-! wipe: overwrite a device or file with a pseudo-random byte stream

A shallow embedding of `wipe/wipe.c` and theorems about it.

* C `int` is 32 bits and C `long` is 64 bits; both are modelled as `Int`, and every
  arithmetic result is brought back into range by `wrapInt` / `wrapLong`
  (two's-complement wrap-around).
* The static variable `seed1` of `ran` is passed explicitly: `ran seed seed1` returns the
  pair (value returned, new value of `seed1`).
* `main` is a state machine over `Session`; the outcome of `fopen` and of each `putc` is
  supplied by an `Env`.
* Below `putc`, `OutStream` holds the stdio buffer and the target; `bufMain` is `main` with
  the outcome of each `putc` given by that stream, for a target that takes a given number
  of bytes.
-/

namespace Wipe

/-! ## Machine integers -/

/-- Smallest value of a 32-bit C `int`. -/
def INT_MIN : Int := -2147483648

/-- Largest value of a 32-bit C `int`. -/
def INT_MAX : Int := 2147483647

/-- Smallest value of a 64-bit C `long`. -/
def LONG_MIN : Int := -9223372036854775808

/-- Largest value of a 64-bit C `long`. -/
def LONG_MAX : Int := 9223372036854775807

/-- Wrap an integer into the range of a 32-bit two's-complement `int`. -/
def wrapInt (x : Int) : Int := (x + 2147483648) % 4294967296 - 2147483648

/-- Wrap an integer into the range of a 64-bit two's-complement `long`. -/
def wrapLong (x : Int) : Int :=
  (x + 9223372036854775808) % 18446744073709551616 - 9223372036854775808

/-! ## The generator (`wipe.c` lines 52-80) -/

/-- Source function `long mod(num1, num2)`: `temp = num1/num2; return num1 - temp*num2`,
with C's truncating division. This is the value returned wherever the division of line 78
is defined; `ran` only calls it with the divisors 259200 and 256. Where the division is
not defined the call does not return, which `modChecked` records. -/
def mod (num1 num2 : Int) : Int :=
  let temp := wrapLong (Int.tdiv num1 num2)
  wrapLong (num1 - wrapLong (temp * num2))

/-- The C division `num1/num2` on `long` (line 78). It has no result, and the program
traps, when the divisor is 0 or when the quotient is not representable, which happens
only for `LONG_MIN / -1`; otherwise it is the quotient truncated toward zero. -/
def longDiv (num1 num2 : Int) : Option Int :=
  if num2 = 0 ∨ (num1 = LONG_MIN ∧ num2 = -1) then none else some (Int.tdiv num1 num2)

/-- Source function `long mod(num1, num2)` with the cases in which line 78 traps kept
apart: `none` when the division has no result, else the value returned. -/
def modChecked (num1 num2 : Int) : Option Int :=
  match longDiv num1 num2 with
  | none => none
  | some temp => some (wrapLong (num1 - wrapLong (temp * num2)))

/-- Local `long num1 = 7141` of `ran`. -/
def num1 : Int := 7141

/-- Local `long inc1 = 54773` of `ran`. -/
def inc1 : Int := 54773

/-- Local `long mod1 = 259200` of `ran`. -/
def mod1 : Int := 259200

/-- Source function `int ran(seed)`. The second argument is the value of the static
`long seed1` before the call; the result is (returned `int`, value of `seed1` after). -/
def ran (seed : Int) (seed1 : Int) : Int × Int :=
  if seed > 0 then
    let seed1 := mod (wrapLong (seed + inc1)) mod1
    (0, seed1)
  else
    let seed1 := mod (wrapLong (wrapLong (num1 * seed1) + inc1)) mod1
    (wrapInt (mod seed1 256), seed1)

/-- The first `n` values returned by successive `ran(0)` calls, starting with `seed1`. -/
def genBytes : Nat → Int → List Int
  | 0, _ => []
  | n + 1, seed1 => (ran 0 seed1).1 :: genBytes n (ran 0 seed1).2

/-- The value of `seed1` after `n` successive `ran(0)` calls, starting with `seed1`. -/
def genState : Nat → Int → Int
  | 0, seed1 => seed1
  | n + 1, seed1 => (ran 0 (genState n seed1)).2

/-- Run a sequence of `ran` calls with the given arguments from state `seed1`; the result
lists each argument with the value returned for it, and gives the final `seed1`. -/
def ranCalls : List Int → Int → List (Int × Int) × Int
  | [], seed1 => ([], seed1)
  | a :: rest, seed1 =>
    let r := ran a seed1
    let t := ranCalls rest r.2
    ((a, r.1) :: t.1, t.2)

/-! ## The program (`wipe.c` lines 11-50) -/

/-- C library `isspace` in the "C" locale: space, and the controls `\t \n \v \f \r`. -/
def isspace (c : Char) : Bool := c.toNat = 32 || (9 ≤ c.toNat && c.toNat ≤ 13)

/-- The digit loop of C library `atoi`: accumulate leading decimal digits. -/
def atoiDigits : List Char → Int → Int
  | [], acc => acc
  | c :: cs, acc =>
    if 48 ≤ c.toNat && c.toNat ≤ 57 then atoiDigits cs (acc * 10 + ((c.toNat : Int) - 48))
    else acc

/-- The number that `strtol` reads in base 10: skip white space, read an optional sign
and the leading decimal digits; text without digits gives 0. -/
def decimalValue (s : String) : Int :=
  match s.toList.dropWhile isspace with
  | '-' :: ds => -(atoiDigits ds 0)
  | '+' :: ds => atoiDigits ds 0
  | ds => atoiDigits ds 0

/-- C library `strtol(s, NULL, 10)`: the number read, held at `LONG_MAX` or `LONG_MIN`
when it is outside the range of `long`. -/
def strtol (s : String) : Int :=
  if decimalValue s > LONG_MAX then LONG_MAX
  else if decimalValue s < LONG_MIN then LONG_MIN
  else decimalValue s

/-- C library `atoi`, which is `(int) strtol(s, NULL, 10)`: the `long` read by `strtol`,
converted to `int` by keeping its low 32 bits. -/
def atoi (s : String) : Int := wrapInt (strtol s)

/-- Value `EOF` of `stdio.h`. -/
def EOF : Int := -1

/-- C library `putc(c, fp)`: when the write succeeds the byte `(unsigned char) c` goes to
the stream and is returned as an `int`; when it fails the result is `EOF`. -/
def putc (c : Int) (ok : Bool) : Int := if ok then c % 256 else EOF

/-- What `main` does to the outside world, in order of occurrence. -/
inductive Event where
  /-- Call `fopen(path, "wb")`; `ok` tells whether a stream was returned (the file is then
  created or truncated). -/
  | fopen (path : String) (ok : Bool)
  /-- Line 26: "Error: Cannot open device or file" on `stderr`. -/
  | stderrCannotOpen (path : String)
  /-- Call `ran(arg)`. -/
  | ranCall (arg : Int)
  /-- Line 32: the start-up message on `stdout`. -/
  | stdoutWriting (path : String) (seed : Int)
  /-- Call `putc(c, fp_write)`; `ok` tells whether the write succeeded. -/
  | putc (c : Int) (ok : Bool)
  /-- Line 37: the progress line showing `meg` on `stdout`. -/
  | stdoutProgress (meg : Int)
  /-- Line 41: `fclose(fp_write)`. -/
  | fclose
  /-- Lines 46-48: the usage text on `stdout`. -/
  | stdoutUsage
  deriving DecidableEq, Repr

/-- Where control is in `main`. -/
inductive Status where
  /-- Inside the `while` loop of line 34. -/
  | looping
  /-- Process ended by `exit(code)`. -/
  | exited (code : Int)
  /-- Control reached the closing brace of `main`. -/
  | returned
  deriving DecidableEq, Repr

/-- The state of a run of `main`: the static `seed1` of `ran`, the locals `i` and `meg`,
the number of `putc` calls made so far, the events so far and the control state. -/
structure Session where
  seed1 : Int
  i : Int
  meg : Int
  puts : Nat
  trace : List Event
  status : Status
  deriving DecidableEq, Repr

/-- The environment of a run: whether `fopen` succeeds on a path, and whether the `k`-th
`putc` call (counted from 0) succeeds. -/
structure Env where
  openOk : String → Bool
  putOk : Nat → Bool

/-- Lines 21-32 and 44-49 of `main`: everything up to the first test of the `while`
loop. `argv` is the argument vector, so `argc` is its length. -/
def mainStart (env : Env) (argv : List String) : Session :=
  match argv with
  | [_, path, seedArg] =>
    if env.openOk path then
      let seed := atoi seedArg
      let r := ran seed 0
      { seed1 := r.2, i := 0, meg := 0, puts := 0,
        trace := [Event.fopen path true, Event.ranCall seed, Event.stdoutWriting path seed],
        status := Status.looping }
    else
      { seed1 := 0, i := 0, meg := 0, puts := 0,
        trace := [Event.fopen path false, Event.stderrCannotOpen path],
        status := Status.exited 1 }
  | _ =>
    { seed1 := 0, i := 0, meg := 0, puts := 0, trace := [Event.stdoutUsage],
      status := Status.returned }

/-- One evaluation of the loop condition of line 34 followed by either the loop body
(lines 35-40) or the loop exit (lines 41-42). `fflush(stdout)` and `printf("")` leave no
event. A session that is no longer looping does not change. -/
def loopStep (env : Env) (s : Session) : Session :=
  if s.status = Status.looping then
    let r := ran 0 s.seed1
    let ok := env.putOk s.puts
    let t := s.trace ++ [Event.ranCall 0, Event.putc r.1 ok]
    if putc r.1 ok ≠ EOF then
      let i := wrapInt (s.i + 1)
      if i = 1048576 then
        let meg := wrapInt (s.meg + 1)
        { seed1 := r.2, i := 0, meg := meg, puts := s.puts + 1,
          trace := t ++ [Event.stdoutProgress meg], status := Status.looping }
      else
        { seed1 := r.2, i := i, meg := s.meg, puts := s.puts + 1, trace := t,
          status := Status.looping }
    else
      { seed1 := r.2, i := s.i, meg := s.meg, puts := s.puts + 1,
        trace := t ++ [Event.fclose], status := Status.returned }
  else s

/-- Run `fuel` loop steps. -/
def runLoop (env : Env) : Nat → Session → Session
  | 0, s => s
  | fuel + 1, s => runLoop env fuel (loopStep env s)

/-- The program: `mainStart`, then `fuel` steps of the `while` loop. -/
def main (env : Env) (argv : List String) (fuel : Nat) : Session :=
  runLoop env fuel (mainStart env argv)

/-- The byte an event hands to the stream: a `putc` that did not return `EOF` has stored
`(unsigned char) c` in the stream. Whether and when the stream passes the byte on to the
target is the matter of `Stream`. -/
def Event.writtenByte : Event → Option Int
  | Event.putc c true => some (c % 256)
  | _ => none

/-- The MB value an event shows, when it is a progress line. -/
def Event.shownMeg : Event → Option Int
  | Event.stdoutProgress m => some m
  | _ => none

/-- The argument an event passes to `ran`, when it is a call of `ran`. -/
def Event.ranArg : Event → Option Int
  | Event.ranCall a => some a
  | _ => none

/-- The bytes the stream accepted, in order: one per `putc` that did not return `EOF`.
What is on the target is `Stream.target`. -/
def written (t : List Event) : List Int := t.filterMap Event.writtenByte

/-- The MB values shown by the progress lines, in order. -/
def progress (t : List Event) : List Int := t.filterMap Event.shownMeg

/-- The arguments of the `ran` calls made, in order. -/
def ranArgs (t : List Event) : List Int := t.filterMap Event.ranArg

/-- An environment in which every `fopen` succeeds and exactly the first `n` `putc`
calls succeed. -/
def envFull (n : Nat) : Env := { openOk := fun _ => true, putOk := fun k => decide (k < n) }

/-- An environment in which `fopen` fails. -/
def envNoOpen : Env := { openOk := fun _ => false, putOk := fun _ => true }

/-! ## Further definitions: byte stream by index, `mod` call sites, 32-bit `long` -/

/-- The `n`-th value (counted from 0) returned by successive `ran(0)` calls, starting with
`seed1`: the value returned by the call made in the state reached after `n` calls. -/
def genByte (n : Nat) (seed1 : Int) : Int := (ran 0 (genState n seed1)).1

/-- The (dividend, divisor) pairs that one call `ran(seed)` passes to `mod`, in order
(lines 63, 68 and 69), for the value `seed1` of the static before the call. -/
def ranModArgs (seed : Int) (seed1 : Int) : List (Int × Int) :=
  if seed > 0 then
    [(wrapLong (seed + inc1), mod1)]
  else
    let d := wrapLong (wrapLong (num1 * seed1) + inc1)
    [(d, mod1), (mod d mod1, 256)]

/-- Source function `mod` on a platform whose `long` has 32 bits. -/
def mod32 (num1 num2 : Int) : Int :=
  let temp := wrapInt (Int.tdiv num1 num2)
  wrapInt (num1 - wrapInt (temp * num2))

/-- Source function `ran` on a platform whose `long` has 32 bits. -/
def ran32 (seed : Int) (seed1 : Int) : Int × Int :=
  if seed > 0 then
    let seed1 := mod32 (wrapInt (seed + inc1)) mod1
    (0, seed1)
  else
    let seed1 := mod32 (wrapInt (wrapInt (num1 * seed1) + inc1)) mod1
    (wrapInt (mod32 seed1 256), seed1)

/-! ## The output stream below `putc`: stdio buffer and target -/

/-- The stream `fp_write` with what lies behind it: the bytes held in the stdio buffer,
oldest first, and the bytes on the target (the file or device), in order. -/
structure OutStream where
  buf : List Int
  target : List Int
  deriving DecidableEq, Repr

/-- Flush of the stdio buffer to a target that takes `cap` bytes in all before its writes
fail: the `write` calls put on the target as many buffered bytes as still fit and fail for
the rest; the C library empties the buffer in either case. The Boolean tells whether every
buffered byte was taken. -/
def OutStream.flush (cap : Nat) (st : OutStream) : OutStream × Bool :=
  ({ buf := [], target := st.target ++ st.buf.take (cap - st.target.length) },
    decide (st.target.length + st.buf.length ≤ cap))

/-- C library `putc(c, fp)` on the fully buffered stream that `fopen` returns, with a
buffer of `bufSize` bytes: while the buffer has room the byte `(unsigned char) c` is stored
in it and returned; when the buffer is full it is flushed first, and if that flush fails
the result is `EOF` and the byte is dropped. -/
def OutStream.putc (bufSize cap : Nat) (st : OutStream) (c : Int) : OutStream × Int :=
  if st.buf.length < bufSize then
    ({ buf := st.buf ++ [c % 256], target := st.target }, c % 256)
  else if (OutStream.flush cap st).2 then
    ({ buf := [c % 256], target := (OutStream.flush cap st).1.target }, c % 256)
  else
    ((OutStream.flush cap st).1, EOF)

/-- C library `fclose(fp)` as far as the target goes: flush what the buffer holds. -/
def OutStream.fclose (cap : Nat) (st : OutStream) : OutStream := (OutStream.flush cap st).1

/-- One step of the loop of `main` on the buffered stream: the step `loopStep`, in which
the outcome of `putc` is the one the stream gives for the generated byte; when the loop is
left, `fclose` (line 41) acts on the stream. -/
def bufStep (bufSize cap : Nat) (b : Session × OutStream) : Session × OutStream :=
  if b.1.status = Status.looping then
    let p := OutStream.putc bufSize cap b.2 (ran 0 b.1.seed1).1
    let s := loopStep { openOk := fun _ => true, putOk := fun _ => decide (p.2 ≠ EOF) } b.1
    (s, if s.status = Status.looping then p.1 else OutStream.fclose cap p.1)
  else b

/-- Run `fuel` loop steps on the buffered stream. -/
def bufRun (bufSize cap : Nat) : Nat → Session × OutStream → Session × OutStream
  | 0, b => b
  | fuel + 1, b => bufRun bufSize cap fuel (bufStep bufSize cap b)

/-- The program on a target that can be opened and takes `cap` bytes, written through a
stream with a buffer of `bufSize` bytes. `fopen` with mode `"wb"` leaves the target empty. -/
def bufMain (bufSize cap : Nat) (argv : List String) (fuel : Nat) : Session × OutStream :=
  bufRun bufSize cap fuel (mainStart (envFull 0) argv, { buf := [], target := [] })

/-! ## Basic facts about `mod` and `ran` -/

theorem wrapLong_of_range (x : Int) (h0 : -9223372036854775808 ≤ x)
    (h1 : x < 9223372036854775808) : wrapLong x = x := by
  unfold wrapLong
  omega

theorem wrapInt_of_range (x : Int) (h0 : -2147483648 ≤ x) (h1 : x < 2147483648) :
    wrapInt x = x := by
  unfold wrapInt
  omega

/-- On a non-negative dividend and a positive divisor, both within `long`, `mod` is the
ordinary remainder. -/
theorem mod_eq_emod (a m : Int) (ha : 0 ≤ a) (ha2 : a < 9223372036854775808)
    (hm : 0 < m) : mod a m = a % m := by
  have hq : Int.tdiv a m = a / m := Int.tdiv_eq_ediv ha (le_of_lt hm)
  have hq0 : 0 ≤ a / m := Int.ediv_nonneg ha (le_of_lt hm)
  have hle : a / m * m ≤ a := Int.ediv_mul_le a (ne_of_gt hm)
  have hqa : a / m ≤ a := by
    have h1 : a / m * 1 ≤ a / m * m := Int.mul_le_mul_of_nonneg_left (by omega) hq0
    omega
  have hp0 : 0 ≤ a / m * m := Int.mul_nonneg hq0 (le_of_lt hm)
  have hd : a % m = a - a / m * m := by
    rw [Int.emod_def, Int.mul_comm]
  have hr0 : 0 ≤ a % m := Int.emod_nonneg a (ne_of_gt hm)
  unfold mod
  simp only [hq]
  rw [wrapLong_of_range (a / m) (by omega) (by omega)]
  rw [wrapLong_of_range (a / m * m) (by omega) (by omega)]
  rw [wrapLong_of_range (a - a / m * m) (by omega) (by omega)]
  exact hd.symm

/-- A seeding call: the new state when the argument is a positive `int`. -/
theorem ran_seed_eq (s x : Int) (hs : 0 < s) (hmax : s ≤ INT_MAX) :
    ran s x = (0, (s + 54773) % 259200) := by
  unfold INT_MAX at hmax
  have hw : wrapLong (s + inc1) = s + 54773 := by
    unfold inc1
    exact wrapLong_of_range _ (by omega) (by omega)
  unfold ran
  rw [if_pos hs, hw, mod_eq_emod _ _ (by omega) (by omega) (by decide)]
  rfl

/-- A generate call from a state in `[0, 259200)`. -/
theorem ran_gen_eq (v x : Int) (hv : v ≤ 0) (h0 : 0 ≤ x) (h1 : x < 259200) :
    ran v x = ((7141 * x + 54773) % 259200 % 256, (7141 * x + 54773) % 259200) := by
  have hw1 : wrapLong (num1 * x) = 7141 * x := by
    unfold num1
    exact wrapLong_of_range _ (by omega) (by omega)
  have hw2 : wrapLong (7141 * x + inc1) = 7141 * x + 54773 := by
    unfold inc1
    exact wrapLong_of_range _ (by omega) (by omega)
  have hm : mod (7141 * x + 54773) mod1 = (7141 * x + 54773) % 259200 :=
    mod_eq_emod _ _ (by omega) (by omega) (by decide)
  have hb : mod ((7141 * x + 54773) % 259200) 256 = (7141 * x + 54773) % 259200 % 256 :=
    mod_eq_emod _ _ (by omega) (by omega) (by decide)
  unfold ran
  rw [if_neg (by omega), hw1, hw2, hm]
  dsimp only
  rw [hb, wrapInt_of_range _ (by omega) (by omega)]

/-- A generate call keeps the state in `[0, 259200)` and returns a value in `[0, 256)`. -/
theorem ran_gen_range (v x : Int) (hv : v ≤ 0) (h0 : 0 ≤ x) (h1 : x < 259200) :
    (0 ≤ (ran v x).2 ∧ (ran v x).2 < 259200) ∧ (0 ≤ (ran v x).1 ∧ (ran v x).1 < 256) := by
  rw [ran_gen_eq v x hv h0 h1]
  dsimp only
  omega

/-- A seeding call with a positive `int` puts the state in `[0, 259200)` and returns 0. -/
theorem ran_seed_range (s x : Int) (hs : 0 < s) (hmax : s ≤ INT_MAX) :
    (0 ≤ (ran s x).2 ∧ (ran s x).2 < 259200) ∧ (ran s x).1 = 0 := by
  rw [ran_seed_eq s x hs hmax]
  dsimp only
  omega

/-- Any call of `ran` with an `int` argument, from a state in `[0, 259200)`, keeps the state
in that range and returns a value in `[0, 256)`. -/
theorem ran_range (a x : Int) (hmax : a ≤ INT_MAX) (h0 : 0 ≤ x) (h1 : x < 259200) :
    (0 ≤ (ran a x).2 ∧ (ran a x).2 < 259200) ∧ (0 ≤ (ran a x).1 ∧ (ran a x).1 < 256) := by
  by_cases ha : 0 < a
  · have h := ran_seed_range a x ha hmax
    omega
  · exact ran_gen_range a x (by omega) h0 h1

/-- The range invariant along a sequence of calls, from any state in range. -/
theorem ranCalls_range (args : List Int) :
    ∀ x : Int, 0 ≤ x → x < 259200 → (∀ a ∈ args, INT_MIN ≤ a ∧ a ≤ INT_MAX) →
      (0 ≤ (ranCalls args x).2 ∧ (ranCalls args x).2 < 259200) ∧
      ∀ p ∈ (ranCalls args x).1, 0 ≤ p.2 ∧ p.2 < 256 := by
  induction args with
  | nil =>
    intro x h0 h1 _
    simp [ranCalls, h0, h1]
  | cons a rest ih =>
    intro x h0 h1 hargs
    have ha := hargs a (List.mem_cons_self a rest)
    have hr := ran_range a x ha.2 h0 h1
    have hrest := ih (ran a x).2 hr.1.1 hr.1.2
      (fun b hb => hargs b (List.mem_cons_of_mem a hb))
    refine ⟨hrest.1, ?_⟩
    intro p hp
    simp only [ranCalls, List.mem_cons] at hp
    rcases hp with hp | hp
    · rw [hp]
      exact hr.2
    · exact hrest.2 p hp

/-! ## Basic facts about the loop -/

theorem written_append (a b : List Event) : written (a ++ b) = written a ++ written b := by
  unfold written
  exact List.filterMap_append a b Event.writtenByte

theorem progress_append (a b : List Event) :
    progress (a ++ b) = progress a ++ progress b := by
  unfold progress
  exact List.filterMap_append a b Event.shownMeg

theorem ranArgs_append (a b : List Event) : ranArgs (a ++ b) = ranArgs a ++ ranArgs b := by
  unfold ranArgs
  exact List.filterMap_append a b Event.ranArg

/-- The value returned by `atoi` is an `int`. -/
theorem atoi_range (a : String) : INT_MIN ≤ atoi a ∧ atoi a ≤ INT_MAX := by
  unfold atoi INT_MIN INT_MAX wrapInt
  omega

/-- Digit strings beyond the range of `long` are held at `LONG_MAX` or `LONG_MIN` by
`strtol`, so `atoi` gives -1 or 0 for them. -/
theorem atoi_saturates :
    atoi "99999999999999999999" = -1 ∧ atoi "-99999999999999999999" = 0 ∧
    atoi "1661992959" = 1661992959 ∧ atoi "12abc" = 12 ∧ atoi " +42" = 42 := by
  decide

theorem genState_range (n : Nat) (x : Int) (h0 : 0 ≤ x) (h1 : x < 259200) :
    0 ≤ genState n x ∧ genState n x < 259200 := by
  induction n with
  | zero => exact ⟨h0, h1⟩
  | succ n ih => exact (ran_gen_range 0 (genState n x) (le_refl 0) ih.1 ih.2).1

theorem genState_succ_first (n : Nat) (x : Int) :
    genState (n + 1) x = genState n (ran 0 x).2 := by
  induction n with
  | zero => rfl
  | succ n ih =>
    show (ran 0 (genState (n + 1) x)).2 = (ran 0 (genState n (ran 0 x).2)).2
    rw [ih]

/-- The `n+1` first bytes are the `n` first bytes followed by the byte generated from the
state reached after `n` steps. -/
theorem genBytes_succ_last (n : Nat) :
    ∀ x : Int, genBytes (n + 1) x = genBytes n x ++ [(ran 0 (genState n x)).1] := by
  induction n with
  | zero =>
    intro x
    rfl
  | succ n ih =>
    intro x
    show (ran 0 x).1 :: genBytes (n + 1) (ran 0 x).2 = _
    rw [ih (ran 0 x).2, genState_succ_first n x]
    rfl

theorem genBytes_length (n : Nat) : ∀ x : Int, (genBytes n x).length = n := by
  induction n with
  | zero =>
    intro x
    rfl
  | succ n ih =>
    intro x
    show (genBytes n (ran 0 x).2).length + 1 = n + 1
    rw [ih]

theorem runLoop_succ_last (env : Env) (n : Nat) :
    ∀ s : Session, runLoop env (n + 1) s = loopStep env (runLoop env n s) := by
  induction n with
  | zero =>
    intro s
    rfl
  | succ n ih =>
    intro s
    show runLoop env (n + 1) (loopStep env s) = _
    rw [ih (loopStep env s)]
    rfl

theorem loopStep_stopped (env : Env) (s : Session) (h : s.status ≠ Status.looping) :
    loopStep env s = s := by
  unfold loopStep
  rw [if_neg h]

/-- Once the loop has been left, further steps change nothing. -/
theorem runLoop_stopped (env : Env) (n : Nat) (s : Session) (h : s.status ≠ Status.looping) :
    runLoop env n s = s := by
  induction n with
  | zero => rfl
  | succ n ih =>
    show runLoop env n (loopStep env s) = s
    rw [loopStep_stopped env s h, ih]

theorem runLoop_add (env : Env) (a b : Nat) :
    ∀ s : Session, runLoop env (a + b) s = runLoop env b (runLoop env a s) := by
  induction a with
  | zero =>
    intro s
    rw [Nat.zero_add]
    rfl
  | succ a ih =>
    intro s
    rw [Nat.add_right_comm]
    show runLoop env (a + b) (loopStep env s) = runLoop env b (runLoop env a (loopStep env s))
    exact ih (loopStep env s)

/-- A loop step whose `putc` succeeds. -/
theorem loopStep_ok (env : Env) (s : Session) (hl : s.status = Status.looping)
    (hok : env.putOk s.puts = true) :
    (loopStep env s).status = Status.looping ∧
    (loopStep env s).puts = s.puts + 1 ∧
    (loopStep env s).seed1 = (ran 0 s.seed1).2 ∧
    written (loopStep env s).trace = written s.trace ++ [(ran 0 s.seed1).1 % 256] ∧
    (loopStep env s).i = (if wrapInt (s.i + 1) = 1048576 then 0 else wrapInt (s.i + 1)) ∧
    (loopStep env s).meg =
      (if wrapInt (s.i + 1) = 1048576 then wrapInt (s.meg + 1) else s.meg) ∧
    progress (loopStep env s).trace =
      progress s.trace ++ (if wrapInt (s.i + 1) = 1048576 then [wrapInt (s.meg + 1)] else []) := by
  have hne : putc (ran 0 s.seed1).1 true ≠ EOF := by
    unfold putc EOF
    rw [if_pos rfl]
    omega
  unfold loopStep
  rw [if_pos hl, hok]
  dsimp only
  rw [if_pos hne]
  by_cases hi : wrapInt (s.i + 1) = 1048576
  · rw [if_pos hi, if_pos hi, if_pos hi, if_pos hi]
    simp [written_append, progress_append, written, progress, Event.writtenByte,
      Event.shownMeg]
  · rw [if_neg hi, if_neg hi, if_neg hi, if_neg hi]
    simp [written_append, progress_append, written, progress, Event.writtenByte,
      Event.shownMeg]

/-- A loop step whose `putc` fails. -/
theorem loopStep_fail (env : Env) (s : Session) (hl : s.status = Status.looping)
    (hfail : env.putOk s.puts = false) :
    loopStep env s =
      { seed1 := (ran 0 s.seed1).2, i := s.i, meg := s.meg, puts := s.puts + 1,
        trace := s.trace ++ [Event.ranCall 0, Event.putc (ran 0 s.seed1).1 false] ++
          [Event.fclose],
        status := Status.returned } := by
  unfold loopStep
  rw [if_pos hl, hfail]
  dsimp only
  rw [if_neg (by unfold putc; simp)]

/-- While every `putc` succeeds the loop keeps running: after `n` steps `n` bytes have been
written, they are the first `n` generated bytes, and `i` counts them modulo 1048576. -/
theorem runLoop_ok (env : Env) (s : Session) (n : Nat) (hl : s.status = Status.looping)
    (hp : s.puts = 0) (hi : s.i = 0) (h0 : 0 ≤ s.seed1) (h1 : s.seed1 < 259200)
    (hok : ∀ k, k < n → env.putOk k = true) :
    (runLoop env n s).status = Status.looping ∧
    (runLoop env n s).puts = n ∧
    (runLoop env n s).seed1 = genState n s.seed1 ∧
    written (runLoop env n s).trace = written s.trace ++ genBytes n s.seed1 ∧
    (runLoop env n s).i = ((n % 1048576 : Nat) : Int) := by
  induction n with
  | zero =>
    refine ⟨hl, hp, rfl, ?_, ?_⟩
    · show written s.trace = written s.trace ++ []
      rw [List.append_nil]
    · show s.i = _
      rw [hi]
      rfl
  | succ n ih =>
    obtain ⟨il, ip, is1, iw, ii⟩ := ih (fun k hk => hok k (Nat.lt_succ_of_lt hk))
    have hput : env.putOk (runLoop env n s).puts = true := by
      rw [ip]
      exact hok n (Nat.lt_succ_self n)
    obtain ⟨sl, sp, ss, sw, si, _, _⟩ := loopStep_ok env (runLoop env n s) il hput
    have hr := genState_range n s.seed1 h0 h1
    have hb := (ran_gen_range 0 (genState n s.seed1) (le_refl 0) hr.1 hr.2).2
    rw [runLoop_succ_last]
    refine ⟨sl, ?_, ?_, ?_, ?_⟩
    · rw [sp, ip]
    · rw [ss, is1]
      rfl
    · rw [sw, iw, is1, genBytes_succ_last, List.append_assoc,
        Int.emod_eq_of_lt hb.1 hb.2]
    · rw [si, ii]
      unfold wrapInt
      split <;> omega

/-- The MB counter and the progress lines while every `putc` succeeds and the counter
stays below `2^31`. -/
theorem runLoop_meg (env : Env) (s : Session) (n : Nat) (hl : s.status = Status.looping)
    (hp : s.puts = 0) (hi : s.i = 0) (hm : s.meg = 0) (h0 : 0 ≤ s.seed1)
    (h1 : s.seed1 < 259200) (hok : ∀ k, k < n → env.putOk k = true)
    (hn : n < 2147483648 * 1048576) :
    (runLoop env n s).meg = ((n / 1048576 : Nat) : Int) ∧
    progress (runLoop env n s).trace =
      progress s.trace ++ (List.range (n / 1048576)).map (fun k : Nat => (k : Int) + 1) := by
  induction n with
  | zero =>
    refine ⟨?_, ?_⟩
    · show s.meg = _
      rw [hm]
      rfl
    · show progress s.trace = progress s.trace ++ []
      rw [List.append_nil]
  | succ n ih =>
    obtain ⟨im, ig⟩ := ih (fun k hk => hok k (Nat.lt_succ_of_lt hk)) (by omega)
    obtain ⟨il, ip, _, _, ii⟩ :=
      runLoop_ok env s n hl hp hi h0 h1 (fun k hk => hok k (Nat.lt_succ_of_lt hk))
    have hput : env.putOk (runLoop env n s).puts = true := by
      rw [ip]
      exact hok n (Nat.lt_succ_self n)
    obtain ⟨_, _, _, _, _, sm, sg⟩ := loopStep_ok env (runLoop env n s) il hput
    rw [runLoop_succ_last, sm, sg, ig, im, ii]
    by_cases hc : (n + 1) % 1048576 = 0
    · have hw : wrapInt (((n % 1048576 : Nat) : Int) + 1) = 1048576 := by
        unfold wrapInt
        omega
      have hd : (n + 1) / 1048576 = n / 1048576 + 1 := by omega
      have hmeg : wrapInt (((n / 1048576 : Nat) : Int) + 1) = ((n / 1048576 : Nat) : Int) + 1 := by
        unfold wrapInt
        omega
      rw [if_pos hw, if_pos hw, hd, hmeg, List.range_succ, List.map_append,
        List.append_assoc]
      refine ⟨?_, rfl⟩
      push_cast
      rfl
    · have hw : wrapInt (((n % 1048576 : Nat) : Int) + 1) ≠ 1048576 := by
        unfold wrapInt
        omega
      have hd : (n + 1) / 1048576 = n / 1048576 := by omega
      rw [if_neg hw, if_neg hw, hd, List.append_nil]
      exact ⟨rfl, rfl⟩

/-- The session at the start of the loop when the target could be opened. -/
theorem mainStart_open (env : Env) (prog path arg : String) (ho : env.openOk path = true) :
    mainStart env [prog, path, arg] =
      { seed1 := (ran (atoi arg) 0).2, i := 0, meg := 0, puts := 0,
        trace := [Event.fopen path true, Event.ranCall (atoi arg),
          Event.stdoutWriting path (atoi arg)],
        status := Status.looping } := by
  unfold mainStart
  simp only [ho, if_true]

/-- The state `main` hands to the loop lies in `[0, 259200)`, whatever the seed argument. -/
theorem mainStart_seed1_range (a : String) :
    0 ≤ (ran (atoi a) 0).2 ∧ (ran (atoi a) 0).2 < 259200 :=
  (ran_range (atoi a) 0 (atoi_range a).2 (le_refl 0) (by decide)).1

/-- A loop step never prints the usage text. -/
theorem loopStep_no_usage (env : Env) (s : Session) (h : Event.stdoutUsage ∉ s.trace) :
    Event.stdoutUsage ∉ (loopStep env s).trace := by
  unfold loopStep
  dsimp only
  split
  · split
    · split <;> simp [h]
    · simp [h]
  · exact h

theorem runLoop_no_usage (env : Env) (n : Nat) :
    ∀ s : Session, Event.stdoutUsage ∉ s.trace → Event.stdoutUsage ∉ (runLoop env n s).trace := by
  induction n with
  | zero =>
    intro s h
    exact h
  | succ n ih =>
    intro s h
    exact ih (loopStep env s) (loopStep_no_usage env s h)

/-! ## The generator: seeding, generating, range, determinism -/

/-- C1: for every positive `int` seed `s` and every prior state `x`, `ran(s)` sets `seed1`
to `(s + 54773) mod 259200` and returns 0; `ran(5)` leaves 54778; and at the start of the
loop, after the seeding call of `main`, no byte has been written. -/
theorem C1_seed_sets_state (s x : Int) (hs : 0 < s) (hmax : s ≤ INT_MAX) :
    (ran s x).2 = (s + 54773) % 259200 ∧ (ran s x).1 = 0 ∧ (ran 5 x).2 = 54778 ∧
    ∀ (env : Env) (prog path arg : String),
      written (mainStart env [prog, path, arg]).trace = [] ∧
      (mainStart env [prog, path, arg]).puts = 0 := by
  refine ⟨?_, ?_, ?_, ?_⟩
  · rw [ran_seed_eq s x hs hmax]
  · rw [ran_seed_eq s x hs hmax]
  · rw [ran_seed_eq 5 x (by decide) (by decide)]
    rfl
  · intro env prog path arg
    unfold mainStart
    by_cases h : env.openOk path = true
    · simp [h, written, Event.writtenByte]
    · simp [h, written, Event.writtenByte]

/-- C1 at seed 5 with prior state 12345. -/
theorem C1_seed_sets_state_witness :
    (0 : Int) < 5 ∧ (5 : Int) ≤ INT_MAX ∧ (ran 5 12345).2 = (5 + 54773) % 259200 ∧
    (ran 5 12345).1 = 0 :=
  ⟨by decide, by decide, (C1_seed_sets_state 5 12345 (by decide) (by decide)).1,
    (C1_seed_sets_state 5 12345 (by decide) (by decide)).2.1⟩

/-- C2: for every state `x` with `0 <= x < 259200`, `ran(0)` sets `seed1` to
`(7141*x + 54773) mod 259200` and returns that new state mod 256. -/
theorem C2_generate_step (x : Int) (h0 : 0 ≤ x) (h1 : x < 259200) :
    (ran 0 x).2 = (7141 * x + 54773) % 259200 ∧ (ran 0 x).1 = (ran 0 x).2 % 256 := by
  rw [ran_gen_eq 0 x (le_refl 0) h0 h1]
  exact ⟨rfl, rfl⟩

/-- C2 at state 54774. -/
theorem C2_generate_step_witness :
    (0 : Int) ≤ 54774 ∧ (54774 : Int) < 259200 ∧
    (ran 0 54774).2 = (7141 * 54774 + 54773) % 259200 ∧
    (ran 0 54774).1 = (ran 0 54774).2 % 256 :=
  ⟨by decide, by decide, C2_generate_step 54774 (by decide) (by decide)⟩

/-- C3: starting from the zero-initialised `seed1`, after every finite sequence of `ran`
calls with arbitrary `int` arguments the state lies in `[0, 259200)`, and every value
returned by a generate call (argument not positive) lies in `[0, 256)`. -/
theorem C3_range_invariant (args : List Int) (hargs : ∀ a ∈ args, INT_MIN ≤ a ∧ a ≤ INT_MAX) :
    (0 ≤ (ranCalls args 0).2 ∧ (ranCalls args 0).2 < 259200) ∧
    ∀ p ∈ (ranCalls args 0).1, p.1 ≤ 0 → 0 ≤ p.2 ∧ p.2 < 256 := by
  have h := ranCalls_range args 0 (le_refl 0) (by decide) hargs
  exact ⟨h.1, fun p hp _ => h.2 p hp⟩

/-- C3 on the call sequence `ran(0); ran(-7); ran(2147483647); ran(0); ran(-2147483648)`. -/
theorem C3_range_invariant_witness :
    (∀ a ∈ [0, -7, 2147483647, 0, -2147483648], INT_MIN ≤ a ∧ a ≤ INT_MAX) ∧
    (0 ≤ (ranCalls [0, -7, 2147483647, 0, -2147483648] 0).2 ∧
      (ranCalls [0, -7, 2147483647, 0, -2147483648] 0).2 < 259200) ∧
    ∀ p ∈ (ranCalls [0, -7, 2147483647, 0, -2147483648] 0).1, p.1 ≤ 0 → 0 ≤ p.2 ∧ p.2 < 256 :=
  ⟨by decide, C3_range_invariant [0, -7, 2147483647, 0, -2147483648] (by decide)⟩

/-- C4: for every positive seed `s`, every `N` and any two states `x`, `y` held before
seeding, the first `N` values returned by `ran(0)` after `ran(s)` are the same. -/
theorem C4_determinism (s x y : Int) (N : Nat) (hs : 0 < s) :
    genBytes N (ran s x).2 = genBytes N (ran s y).2 := by
  have h : (ran s x).2 = (ran s y).2 := by
    unfold ran
    rw [if_pos hs, if_pos hs]
  rw [h]

/-- C4 at seed 42, prior states 0 and 99999, first 4 bytes. -/
theorem C4_determinism_witness :
    (0 : Int) < 42 ∧ genBytes 4 (ran 42 0).2 = genBytes 4 (ran 42 99999).2 :=
  ⟨by decide, C4_determinism 42 0 99999 4 (by decide)⟩

/-! ## The program: written stream, first output, progress, failures -/

/-- At the `putc` interface: for every positive seed `s` and every `N`, if `putc` takes
the first `N` bytes and returns `EOF` on call `N+1`, the loop ends and the bytes `putc` took
are, in order, exactly the first `N` outputs of the generator seeded with `s`. -/
theorem written_stream_at_putc (env : Env) (prog path arg : String) (s : Int) (N fuel : Nat)
    (hopen : env.openOk path = true) (harg : atoi arg = s) (hs : 0 < s)
    (hok : ∀ k, k < N → env.putOk k = true) (hfail : env.putOk N = false)
    (hfuel : N + 1 ≤ fuel) :
    written (main env [prog, path, arg] fuel).trace = genBytes N (ran s 0).2 ∧
    (ran s 0).2 = (s + 54773) % 259200 ∧
    (written (main env [prog, path, arg] fuel).trace).length = N ∧
    (main env [prog, path, arg] fuel).status = Status.returned := by
  have hr := mainStart_seed1_range arg
  have hst := mainStart_open env prog path arg hopen
  obtain ⟨il, ip, _, iw, _⟩ := runLoop_ok env (mainStart env [prog, path, arg]) N
    (by rw [hst]) (by rw [hst]) (by rw [hst]) (by rw [hst]; exact hr.1)
    (by rw [hst]; exact hr.2) hok
  have hf : env.putOk (runLoop env N (mainStart env [prog, path, arg])).puts = false := by
    rw [ip]
    exact hfail
  have hstep := loopStep_fail env _ il hf
  have hmain : main env [prog, path, arg] fuel =
      loopStep env (runLoop env N (mainStart env [prog, path, arg])) := by
    unfold main
    have hsplit : fuel = (N + 1) + (fuel - (N + 1)) := by omega
    rw [hsplit, runLoop_add, runLoop_succ_last]
    apply runLoop_stopped
    rw [hstep]
    simp
  have hw : written (main env [prog, path, arg] fuel).trace = genBytes N (ran s 0).2 := by
    rw [hmain, hstep]
    simp only [written_append]
    rw [iw, hst, harg]
    simp [written, Event.writtenByte]
  refine ⟨hw, ?_, ?_, ?_⟩
  · rw [ran_seed_eq s 0 hs (by rw [← harg]; exact (atoi_range arg).2)]
  · rw [hw, genBytes_length]
  · rw [hmain, hstep]

/-- C6: for every positive seed `s`, `ran(s)` followed by one `ran(0)` leaves the state
`(7141*((s + 54773) mod 259200) + 54773) mod 259200` and returns that state mod 256; for
`s = 1` the state is 63107 and the byte is 131. -/
theorem C6_first_output (s x : Int) (hs : 0 < s) (hmax : s ≤ INT_MAX) :
    (ran 0 (ran s x).2).2 = (7141 * ((s + 54773) % 259200) + 54773) % 259200 ∧
    (ran 0 (ran s x).2).1 = (ran 0 (ran s x).2).2 % 256 ∧
    ran 0 (ran 1 x).2 = (131, 63107) ∧
    (7141 * 54774 + 54773) % 259200 = (63107 : Int) := by
  have h1 : (ran s x).2 = (s + 54773) % 259200 := by rw [ran_seed_eq s x hs hmax]
  have h2 : (ran 1 x).2 = 54774 := by
    rw [ran_seed_eq 1 x (by decide) (by decide)]
    rfl
  refine ⟨?_, ?_, ?_, by decide⟩
  · rw [h1, ran_gen_eq 0 _ (le_refl 0) (by omega) (by omega)]
  · rw [h1, ran_gen_eq 0 _ (le_refl 0) (by omega) (by omega)]
  · rw [h2]
    decide

/-- C6 at seed 1 with prior state 777. -/
theorem C6_first_output_witness :
    (0 : Int) < 1 ∧ (1 : Int) ≤ INT_MAX ∧
    (ran 0 (ran 1 777).2).2 = (7141 * ((1 + 54773) % 259200) + 54773) % 259200 :=
  ⟨by decide, by decide, (C6_first_output 1 777 (by decide) (by decide)).1⟩

/-- C7: after `n` successful byte writes, with `n < 2^31 * 1048576`, the loop is still
running, `n` bytes have been written, the progress lines emitted are exactly those showing
`1, 2, ..., floor(n / 1048576)` in this order, `i = n mod 1048576` and
`meg = floor(n / 1048576)`. -/
theorem C7_progress_cadence (env : Env) (prog path arg : String) (n : Nat)
    (hopen : env.openOk path = true) (hok : ∀ k, k < n → env.putOk k = true)
    (hn : n < 2147483648 * 1048576) :
    (main env [prog, path, arg] n).status = Status.looping ∧
    (written (main env [prog, path, arg] n).trace).length = n ∧
    progress (main env [prog, path, arg] n).trace =
      (List.range (n / 1048576)).map (fun k : Nat => (k : Int) + 1) ∧
    (progress (main env [prog, path, arg] n).trace).length = n / 1048576 ∧
    (main env [prog, path, arg] n).i = ((n % 1048576 : Nat) : Int) ∧
    (main env [prog, path, arg] n).meg = ((n / 1048576 : Nat) : Int) := by
  have hr := mainStart_seed1_range arg
  have hst := mainStart_open env prog path arg hopen
  obtain ⟨il, _, _, iw, ii⟩ := runLoop_ok env (mainStart env [prog, path, arg]) n
    (by rw [hst]) (by rw [hst]) (by rw [hst]) (by rw [hst]; exact hr.1)
    (by rw [hst]; exact hr.2) hok
  obtain ⟨im, ig⟩ := runLoop_meg env (mainStart env [prog, path, arg]) n
    (by rw [hst]) (by rw [hst]) (by rw [hst]) (by rw [hst]) (by rw [hst]; exact hr.1)
    (by rw [hst]; exact hr.2) hok hn
  have hg : progress (main env [prog, path, arg] n).trace =
      (List.range (n / 1048576)).map (fun k : Nat => (k : Int) + 1) := by
    unfold main
    rw [ig, hst]
    simp [progress, Event.shownMeg]
  refine ⟨il, ?_, hg, ?_, ii, im⟩
  · unfold main
    rw [iw, hst]
    simp [written, Event.writtenByte, genBytes_length]
  · rw [hg, List.length_map, List.length_range]

/-- C7 at 1,048,576 writes (one progress line, showing 1) and at 1,048,575 writes (none). -/
theorem C7_progress_cadence_witness :
    progress (main (envFull 1048576) ["wipe", "testfile", "42"] 1048576).trace = [1] ∧
    (main (envFull 1048576) ["wipe", "testfile", "42"] 1048576).i = 0 ∧
    (main (envFull 1048576) ["wipe", "testfile", "42"] 1048576).meg = 1 ∧
    progress (main (envFull 1048576) ["wipe", "testfile", "42"] 1048575).trace = [] ∧
    (main (envFull 1048576) ["wipe", "testfile", "42"] 1048575).i = 1048575 ∧
    (main (envFull 1048576) ["wipe", "testfile", "42"] 1048575).meg = 0 :=
  ⟨(C7_progress_cadence (envFull 1048576) "wipe" "testfile" "42" 1048576 rfl
      (fun _ hk => decide_eq_true hk) (by decide)).2.2.1,
    (C7_progress_cadence (envFull 1048576) "wipe" "testfile" "42" 1048576 rfl
      (fun _ hk => decide_eq_true hk) (by decide)).2.2.2.2.1,
    (C7_progress_cadence (envFull 1048576) "wipe" "testfile" "42" 1048576 rfl
      (fun _ hk => decide_eq_true hk) (by decide)).2.2.2.2.2,
    (C7_progress_cadence (envFull 1048576) "wipe" "testfile" "42" 1048575 rfl
      (fun _ hk => decide_eq_true (Nat.lt_succ_of_lt hk)) (by decide)).2.2.1,
    (C7_progress_cadence (envFull 1048576) "wipe" "testfile" "42" 1048575 rfl
      (fun _ hk => decide_eq_true (Nat.lt_succ_of_lt hk)) (by decide)).2.2.2.2.1,
    (C7_progress_cadence (envFull 1048576) "wipe" "testfile" "42" 1048575 rfl
      (fun _ hk => decide_eq_true (Nat.lt_succ_of_lt hk)) (by decide)).2.2.2.2.2⟩

/-- C8: when a byte write fails in a running loop, the loop ends at that write: the only
new events are the `ran(0)` call, the failed `putc` and `fclose`; `i` and `meg` keep their
values, the written bytes and the progress lines are unchanged, and running the loop for
any further number of steps changes nothing, so no further write is attempted. -/
theorem C8_write_failure (env : Env) (s : Session) (m : Nat) (hl : s.status = Status.looping)
    (hfail : env.putOk s.puts = false) :
    (loopStep env s).status = Status.returned ∧
    (loopStep env s).trace =
      s.trace ++ [Event.ranCall 0, Event.putc (ran 0 s.seed1).1 false, Event.fclose] ∧
    (loopStep env s).i = s.i ∧
    (loopStep env s).meg = s.meg ∧
    written (loopStep env s).trace = written s.trace ∧
    progress (loopStep env s).trace = progress s.trace ∧
    (loopStep env s).puts = s.puts + 1 ∧
    runLoop env m (loopStep env s) = loopStep env s := by
  have hstep := loopStep_fail env s hl hfail
  refine ⟨?_, ?_, ?_, ?_, ?_, ?_, ?_, ?_⟩
  · rw [hstep]
  · rw [hstep]
    simp
  · rw [hstep]
  · rw [hstep]
  · rw [hstep]
    simp [written_append, written, Event.writtenByte]
  · rw [hstep]
    simp [progress_append, progress, Event.shownMeg]
  · rw [hstep]
  · apply runLoop_stopped
    rw [hstep]
    simp

/-- C8 on `wipe testfile 42` after two accepted bytes, with five further steps. -/
theorem C8_write_failure_witness :
    (main (envFull 2) ["wipe", "testfile", "42"] 2).status = Status.looping ∧
    (envFull 2).putOk (main (envFull 2) ["wipe", "testfile", "42"] 2).puts = false ∧
    (loopStep (envFull 2) (main (envFull 2) ["wipe", "testfile", "42"] 2)).status =
      Status.returned ∧
    runLoop (envFull 2) 5 (loopStep (envFull 2) (main (envFull 2) ["wipe", "testfile", "42"] 2)) =
      loopStep (envFull 2) (main (envFull 2) ["wipe", "testfile", "42"] 2) :=
  ⟨by decide, by decide,
    (C8_write_failure (envFull 2) (main (envFull 2) ["wipe", "testfile", "42"] 2) 5
      (by decide) (by decide)).1,
    (C8_write_failure (envFull 2) (main (envFull 2) ["wipe", "testfile", "42"] 2) 5
      (by decide) (by decide)).2.2.2.2.2.2.2⟩

/-- C9, as stated, fails: for the seed arguments `"-1"` and `"abc"` the target is opened
(and so truncated), no usage text is printed, and the value (`-1`, resp. `0`) is passed to
`ran`, which takes it as a generate call on the zero state and leaves `seed1 = 54773`. -/
theorem C9_invalid_seed_counterexample :
    (main (envFull 0) ["wipe", "testfile", "-1"] 0).trace =
      [Event.fopen "testfile" true, Event.ranCall (-1), Event.stdoutWriting "testfile" (-1)] ∧
    (main (envFull 0) ["wipe", "testfile", "-1"] 0).seed1 = 54773 ∧
    (main (envFull 0) ["wipe", "testfile", "-1"] 0).status = Status.looping ∧
    (main (envFull 0) ["wipe", "testfile", "abc"] 0).trace =
      [Event.fopen "testfile" true, Event.ranCall 0, Event.stdoutWriting "testfile" 0] ∧
    (main (envFull 0) ["wipe", "testfile", "abc"] 0).seed1 = 54773 ∧
    (main (envFull 0) ["wipe", "testfile", "abc"] 0).status = Status.looping := by
  decide

/-- C9 as amended: with two arguments the program makes no check of the seed argument,
whatever it is. Its first action is the call of `fopen` on the target, and it never prints
the usage text. When `fopen` succeeds it passes `atoi` of the seed argument to `ran` and
enters the loop with the state that call leaves. When that value is not positive, `ran`
takes it as a generate call on the zero state, leaving 54773. -/
theorem C9_invalid_seed_amended (env : Env) (prog path arg : String) (fuel : Nat) :
    (mainStart env [prog, path, arg]).trace.head? =
      some (Event.fopen path (env.openOk path)) ∧
    Event.stdoutUsage ∉ (main env [prog, path, arg] fuel).trace ∧
    (env.openOk path = true →
      (mainStart env [prog, path, arg]).trace =
        [Event.fopen path true, Event.ranCall (atoi arg),
          Event.stdoutWriting path (atoi arg)] ∧
      (mainStart env [prog, path, arg]).seed1 = (ran (atoi arg) 0).2 ∧
      (mainStart env [prog, path, arg]).status = Status.looping) ∧
    (env.openOk path = true → atoi arg ≤ 0 →
      ran (atoi arg) 0 = ran 0 0 ∧
      (mainStart env [prog, path, arg]).seed1 = 54773) := by
  have hnu : Event.stdoutUsage ∉ (mainStart env [prog, path, arg]).trace := by
    unfold mainStart
    by_cases ho : env.openOk path = true
    · simp [ho]
    · simp [ho]
  refine ⟨?_, ?_, ?_, ?_⟩
  · unfold mainStart
    by_cases ho : env.openOk path = true
    · simp [ho]
    · simp [ho]
  · unfold main
    exact runLoop_no_usage env fuel _ hnu
  · intro hopen
    rw [mainStart_open env prog path arg hopen]
    exact ⟨rfl, rfl, rfl⟩
  · intro hopen hv
    have hgen : ∀ w : Int, w ≤ 0 → ran w 0 = (245, 54773) := by
      intro w hw
      rw [ran_gen_eq w 0 hw (le_refl 0) (by decide)]
      rfl
    rw [mainStart_open env prog path arg hopen, hgen (atoi arg) hv, hgen 0 (le_refl 0)]
    exact ⟨rfl, rfl⟩

/-- C9 as amended, for `wipe testfile 12abc` (a non-numeric seed whose value is 12) and for
`wipe testfile -1`, each after three loop steps. -/
theorem C9_invalid_seed_amended_witness :
    Event.stdoutUsage ∉ (main (envFull 3) ["wipe", "testfile", "12abc"] 3).trace ∧
    (mainStart (envFull 3) ["wipe", "testfile", "12abc"]).trace =
      [Event.fopen "testfile" true, Event.ranCall 12, Event.stdoutWriting "testfile" 12] ∧
    (mainStart (envFull 3) ["wipe", "testfile", "-1"]).seed1 = 54773 :=
  ⟨(C9_invalid_seed_amended (envFull 3) "wipe" "testfile" "12abc" 3).2.1,
    ((C9_invalid_seed_amended (envFull 3) "wipe" "testfile" "12abc" 3).2.2.1 rfl).1,
    ((C9_invalid_seed_amended (envFull 3) "wipe" "testfile" "-1" 3).2.2.2 rfl
      (by decide)).2⟩

/-- C10: when the program is invoked with two arguments and the target cannot be opened,
it reports the error on `stderr`, exits with code 1, writes no byte, never calls `ran`
and never calls `putc`, however long it is observed. -/
theorem C10_open_failure (env : Env) (prog path arg : String) (fuel : Nat)
    (hfail : env.openOk path = false) :
    (main env [prog, path, arg] fuel).status = Status.exited 1 ∧
    (main env [prog, path, arg] fuel).trace =
      [Event.fopen path false, Event.stderrCannotOpen path] ∧
    written (main env [prog, path, arg] fuel).trace = [] ∧
    ranArgs (main env [prog, path, arg] fuel).trace = [] ∧
    (main env [prog, path, arg] fuel).puts = 0 := by
  have hst : mainStart env [prog, path, arg] =
      { seed1 := 0, i := 0, meg := 0, puts := 0,
        trace := [Event.fopen path false, Event.stderrCannotOpen path],
        status := Status.exited 1 } := by
    unfold mainStart
    simp [hfail]
  have hmain : main env [prog, path, arg] fuel = mainStart env [prog, path, arg] := by
    unfold main
    apply runLoop_stopped
    rw [hst]
    simp
  rw [hmain, hst]
  simp [written, ranArgs, Event.writtenByte, Event.ranArg]

/-- C10 for `wipe /nonexistent/dir/file 42` observed for seven steps. -/
theorem C10_open_failure_witness :
    envNoOpen.openOk "/nonexistent/dir/file" = false ∧
    (main envNoOpen ["wipe", "/nonexistent/dir/file", "42"] 7).status = Status.exited 1 ∧
    written (main envNoOpen ["wipe", "/nonexistent/dir/file", "42"] 7).trace = [] :=
  ⟨rfl, (C10_open_failure envNoOpen "wipe" "/nonexistent/dir/file" "42" 7 rfl).1,
    (C10_open_failure envNoOpen "wipe" "/nonexistent/dir/file" "42" 7 rfl).2.2.1⟩

/-! ## Further facts about `mod` -/

/-- The value of `wrapLong` differs from its argument by a multiple of `2^64`. -/
theorem wrapLong_spec (x : Int) : ∃ k : Int, wrapLong x = x + 18446744073709551616 * k :=
  ⟨-((x + 9223372036854775808) / 18446744073709551616), by unfold wrapLong; omega⟩

theorem wrapLong_add_mul (x k : Int) : wrapLong (x + 18446744073709551616 * k) = wrapLong x := by
  unfold wrapLong
  omega

/-- Truncating division by `m` of a non-negative `a`, times `m`, lies between 0 and `a`. -/
theorem tdiv_mul_bounds (a m : Int) (ha : 0 ≤ a) :
    0 ≤ Int.tdiv a m * m ∧ Int.tdiv a m * m ≤ a := by
  have hr : 0 ≤ Int.tmod a m := Int.tmod_nonneg m ha
  have hd : Int.tmod a m = a - m * Int.tdiv a m := Int.tmod_def a m
  have hc : Int.tdiv a m * m = m * Int.tdiv a m := Int.mul_comm _ _
  refine ⟨?_, by omega⟩
  rcases le_total 0 m with hm | hm
  · exact Int.mul_nonneg (Int.tdiv_nonneg ha hm) hm
  · have hq : Int.tdiv a m = -Int.tdiv a (-m) := by
      rw [Int.tdiv_neg, Int.neg_neg]
    have hq0 : 0 ≤ Int.tdiv a (-m) := Int.tdiv_nonneg ha (by omega)
    have hp : 0 ≤ Int.tdiv a (-m) * (-m) := Int.mul_nonneg hq0 (by omega)
    rw [hq, Int.neg_mul, ← Int.mul_neg]
    exact hp

/-- The truncating remainder lies between 0 and the dividend. -/
theorem tmod_bounds (a m : Int) :
    (0 ≤ a → 0 ≤ a - Int.tdiv a m * m ∧ a - Int.tdiv a m * m ≤ a) ∧
    (a ≤ 0 → a ≤ a - Int.tdiv a m * m ∧ a - Int.tdiv a m * m ≤ 0) := by
  constructor
  · intro ha
    have h := tdiv_mul_bounds a m ha
    omega
  · intro ha
    have h := tdiv_mul_bounds (-a) m (by omega)
    rw [Int.neg_tdiv, Int.neg_mul] at h
    omega

/-- On operands within `long`, `mod` is `a - (a/m)*m` with truncating division: the
wrap-around of the intermediate results cancels. -/
theorem mod_eq_sub (a m : Int) (ha0 : LONG_MIN ≤ a) (ha1 : a ≤ LONG_MAX) :
    mod a m = a - Int.tdiv a m * m := by
  unfold LONG_MIN at ha0
  unfold LONG_MAX at ha1
  have hb := tmod_bounds a m
  have hrange : -9223372036854775808 ≤ a - Int.tdiv a m * m ∧
      a - Int.tdiv a m * m < 9223372036854775808 := by
    rcases le_total 0 a with h | h
    · have := hb.1 h
      omega
    · have := hb.2 h
      omega
  unfold mod
  dsimp only
  obtain ⟨k1, h1⟩ := wrapLong_spec (Int.tdiv a m)
  rw [h1]
  obtain ⟨k2, h2⟩ := wrapLong_spec ((Int.tdiv a m + 18446744073709551616 * k1) * m)
  rw [h2]
  have he : a - ((Int.tdiv a m + 18446744073709551616 * k1) * m + 18446744073709551616 * k2) =
      (a - Int.tdiv a m * m) + 18446744073709551616 * (-(k1 * m) - k2) := by ring
  rw [he, wrapLong_add_mul, wrapLong_of_range _ hrange.1 hrange.2]

/-- On a non-negative dividend below `2^31` and a positive divisor, `mod32` is the
ordinary remainder. -/
theorem mod32_eq_emod (a m : Int) (ha : 0 ≤ a) (ha2 : a < 2147483648) (hm : 0 < m) :
    mod32 a m = a % m := by
  have hq : Int.tdiv a m = a / m := Int.tdiv_eq_ediv ha (le_of_lt hm)
  have hq0 : 0 ≤ a / m := Int.ediv_nonneg ha (le_of_lt hm)
  have hle : a / m * m ≤ a := Int.ediv_mul_le a (ne_of_gt hm)
  have hqa : a / m ≤ a := by
    have h1 : a / m * 1 ≤ a / m * m := Int.mul_le_mul_of_nonneg_left (by omega) hq0
    omega
  have hp0 : 0 ≤ a / m * m := Int.mul_nonneg hq0 (le_of_lt hm)
  have hd : a % m = a - a / m * m := by
    rw [Int.emod_def, Int.mul_comm]
  have hr0 : 0 ≤ a % m := Int.emod_nonneg a (ne_of_gt hm)
  unfold mod32
  simp only [hq]
  rw [wrapInt_of_range (a / m) (by omega) (by omega)]
  rw [wrapInt_of_range (a / m * m) (by omega) (by omega)]
  rw [wrapInt_of_range (a - a / m * m) (by omega) (by omega)]
  exact hd.symm

/-! ## Termination, reduction rule, operand signs, word size -/

/-- C11: for every seed argument and every `n`, if the first `n` byte writes succeed the
loop is still running after `n` iterations and `putc` was called `n` times; `putc` on a
successful write of any value returns a value in `[0, 256)`, never `EOF`, and returns a
generated byte unchanged; so a loop that has ended has met a failed write. -/
theorem C11_no_natural_termination (env : Env) (prog path arg : String) (n : Nat)
    (hopen : env.openOk path = true) :
    ((∀ k, k < n → env.putOk k = true) →
      (main env [prog, path, arg] n).status = Status.looping ∧
      (main env [prog, path, arg] n).puts = n) ∧
    (∀ c : Int, putc c true ≠ EOF ∧ 0 ≤ putc c true ∧ putc c true < 256) ∧
    (∀ k : Nat, putc (genByte k (mainStart env [prog, path, arg]).seed1) true =
      genByte k (mainStart env [prog, path, arg]).seed1) ∧
    ((main env [prog, path, arg] n).status ≠ Status.looping →
      ∃ k, k < n ∧ env.putOk k = false) := by
  have hr := mainStart_seed1_range arg
  have hst := mainStart_open env prog path arg hopen
  have hrun : (∀ k, k < n → env.putOk k = true) →
      (main env [prog, path, arg] n).status = Status.looping ∧
      (main env [prog, path, arg] n).puts = n := by
    intro hok
    obtain ⟨il, ip, _, _, _⟩ := runLoop_ok env (mainStart env [prog, path, arg]) n
      (by rw [hst]) (by rw [hst]) (by rw [hst]) (by rw [hst]; exact hr.1)
      (by rw [hst]; exact hr.2) hok
    exact ⟨il, ip⟩
  refine ⟨hrun, ?_, ?_, ?_⟩
  · intro c
    unfold putc EOF
    rw [if_pos rfl]
    omega
  · intro k
    have hs1 : (mainStart env [prog, path, arg]).seed1 = (ran (atoi arg) 0).2 := by rw [hst]
    have hg := genState_range k _ hr.1 hr.2
    have hb := (ran_gen_range 0 _ (le_refl 0) hg.1 hg.2).2
    rw [hs1]
    unfold putc genByte
    rw [if_pos rfl, Int.emod_eq_of_lt hb.1 hb.2]
  · intro hne
    by_contra hall
    have hok : ∀ k, k < n → env.putOk k = true := by
      intro k hk
      by_contra hk2
      exact hall ⟨k, hk, by simpa using hk2⟩
    exact hne (hrun hok).1

/-- C11 for `wipe testfile 42` with 5 accepted writes. -/
theorem C11_no_natural_termination_witness :
    (envFull 5).openOk "testfile" = true ∧
    (main (envFull 5) ["wipe", "testfile", "42"] 5).status = Status.looping :=
  ⟨rfl, ((C11_no_natural_termination (envFull 5) "wipe" "testfile" "42" 5 rfl).1
    (fun _ hk => decide_eq_true hk)).1⟩

/-- The truncated quotient is bounded by the dividend in absolute value. -/
theorem tdiv_bounds (a m : Int) :
    (0 ≤ a → -a ≤ Int.tdiv a m ∧ Int.tdiv a m ≤ a) ∧
    (a ≤ 0 → a ≤ Int.tdiv a m ∧ Int.tdiv a m ≤ -a) := by
  have hn : (Int.tdiv a m).natAbs ≤ a.natAbs := by
    rw [Int.natAbs_tdiv]
    exact Nat.div_le_self _ _
  constructor
  · intro h
    omega
  · intro h
    omega

/-- Unless the operands are `LONG_MIN` and `-1`, the quotient of a `long` is a `long`. -/
theorem tdiv_representable (a m : Int) (ha0 : LONG_MIN ≤ a) (ha1 : a ≤ LONG_MAX)
    (hx : ¬(a = LONG_MIN ∧ m = -1)) :
    LONG_MIN ≤ Int.tdiv a m ∧ Int.tdiv a m ≤ LONG_MAX := by
  unfold LONG_MIN at ha0 hx ⊢
  unfold LONG_MAX at ha1 ⊢
  have hb := tdiv_bounds a m
  have hp := tmod_bounds a m
  rcases le_total 0 a with h | h
  · have := hb.1 h
    omega
  · have h1 := hb.2 h
    have h2 := hp.2 h
    refine ⟨by omega, ?_⟩
    by_contra hc
    have hq : Int.tdiv a m = 9223372036854775808 := by omega
    rw [hq] at h2
    have hm : m = -1 ∨ m = 0 := by omega
    rcases hm with hm | hm
    · exact hx ⟨by omega, hm⟩
    · rw [hm, Int.tdiv_zero] at hq
      omega

/-- Where the division is defined, `modChecked` returns the value of `mod`. -/
theorem modChecked_eq_mod (a m : Int) (ha0 : LONG_MIN ≤ a) (ha1 : a ≤ LONG_MAX)
    (hm : m ≠ 0) (hx : ¬(a = LONG_MIN ∧ m = -1)) :
    modChecked a m = some (mod a m) := by
  have hq := tdiv_representable a m ha0 ha1 hx
  unfold LONG_MIN LONG_MAX at hq
  have hdef : ¬(m = 0 ∨ (a = LONG_MIN ∧ m = -1)) := by
    intro h
    rcases h with h | h
    · exact hm h
    · exact hx h
  unfold modChecked longDiv mod
  rw [if_neg hdef]
  dsimp only
  rw [wrapLong_of_range (Int.tdiv a m) hq.1 (by omega)]

/-- The result of `wrapLong` is a `long`. -/
theorem wrapLong_range (x : Int) : LONG_MIN ≤ wrapLong x ∧ wrapLong x ≤ LONG_MAX := by
  unfold wrapLong LONG_MIN LONG_MAX
  omega

/-- Every call of `mod` made by `ran`, whatever the argument and the state, has a defined
division: the divisor is 259200 or 256. So `ran`, written with `mod`, loses nothing. -/
theorem ran_division_defined (seed seed1 : Int) :
    ∀ p ∈ ranModArgs seed seed1, modChecked p.1 p.2 = some (mod p.1 p.2) := by
  have h1 : ∀ d : Int, modChecked (wrapLong d) mod1 = some (mod (wrapLong d) mod1) := by
    intro d
    have hr := wrapLong_range d
    exact modChecked_eq_mod (wrapLong d) mod1 hr.1 hr.2 (by decide)
      (fun h => absurd h.2 (by decide))
  have h2 : ∀ d : Int, modChecked (mod d mod1) 256 = some (mod (mod d mod1) 256) := by
    intro d
    have hr : LONG_MIN ≤ mod d mod1 ∧ mod d mod1 ≤ LONG_MAX := by
      unfold mod
      exact wrapLong_range _
    exact modChecked_eq_mod (mod d mod1) 256 hr.1 hr.2 (by decide)
      (fun h => absurd h.2 (by decide))
  intro p hp
  unfold ranModArgs at hp
  by_cases hs : seed > 0
  · rw [if_pos hs] at hp
    simp only [List.mem_singleton] at hp
    rw [hp]
    exact h1 _
  · rw [if_neg hs] at hp
    simp only [List.mem_cons, List.mem_singleton, List.mem_nil_iff, or_false] at hp
    rcases hp with hp | hp
    · rw [hp]
      exact h1 _
    · rw [hp]
      exact h2 _

/-- C12, as stated, fails at one pair: for `a = LONG_MIN` and the non-zero `m = -1` the
quotient `a/m` of line 78 is not representable, the division has no result and `mod`
returns nothing, although `a - (a/m)*m` is 0 in the integers. -/
theorem C12_reduction_rule_counterexample :
    (-1 : Int) ≠ 0 ∧ LONG_MIN - Int.tdiv LONG_MIN (-1) * (-1) = 0 ∧
    LONG_MAX < Int.tdiv LONG_MIN (-1) ∧
    longDiv LONG_MIN (-1) = none ∧
    modChecked LONG_MIN (-1) = none ∧
    modChecked LONG_MIN (-1) ≠ some (LONG_MIN - Int.tdiv LONG_MIN (-1) * (-1)) := by
  decide

/-- C12 as amended: for every `long` `a` and every non-zero `m`, the pair
`(LONG_MIN, -1)` apart, the quotient `a/m` is representable, `mod(a, m)` returns, and its
value is `a - (a/m)*m` with division truncating toward zero, that is the C remainder,
whose sign follows the dividend; `mod(-7, 3) = -1` where the floor-mod is 2; for `a >= 0`
and `m > 0` it is the ordinary remainder and lies in `[0, m)`. -/
theorem C12_reduction_rule_amended (a m : Int) (ha0 : LONG_MIN ≤ a) (ha1 : a ≤ LONG_MAX)
    (hm : m ≠ 0) (hx : ¬(a = LONG_MIN ∧ m = -1)) :
    (LONG_MIN ≤ Int.tdiv a m ∧ Int.tdiv a m ≤ LONG_MAX) ∧
    modChecked a m = some (a - Int.tdiv a m * m) ∧
    mod a m = a - Int.tdiv a m * m ∧
    mod a m = Int.tmod a m ∧
    (0 ≤ a → 0 ≤ mod a m) ∧
    (a ≤ 0 → mod a m ≤ 0) ∧
    modChecked (-7) 3 = some (-1) ∧ mod (-7) 3 = -1 ∧ Int.fmod (-7) 3 = 2 ∧
    (0 ≤ a → 0 < m → mod a m = a % m ∧ 0 ≤ mod a m ∧ mod a m < m) := by
  have he := mod_eq_sub a m ha0 ha1
  have hb := tmod_bounds a m
  have hc := modChecked_eq_mod a m ha0 ha1 hm hx
  rw [he] at hc
  refine ⟨tdiv_representable a m ha0 ha1 hx, hc, he, ?_, ?_, ?_, by decide, by decide,
    by decide, ?_⟩
  · rw [he, Int.tmod_def, Int.mul_comm]
  · intro h
    rw [he]
    exact (hb.1 h).1
  · intro h
    rw [he]
    exact (hb.2 h).2
  · intro h hpos
    have hmod : mod a m = a % m := by
      rw [he, Int.tdiv_eq_ediv h (le_of_lt hpos), Int.emod_def, Int.mul_comm]
    rw [hmod]
    exact ⟨rfl, Int.emod_nonneg a (ne_of_gt hpos), Int.emod_lt_of_pos a hpos⟩

/-- C12 as amended, at `a = -7`, `m = 3`. -/
theorem C12_reduction_rule_amended_witness :
    LONG_MIN ≤ (-7 : Int) ∧ (-7 : Int) ≤ LONG_MAX ∧ (3 : Int) ≠ 0 ∧
    modChecked (-7) 3 = some (-7 - Int.tdiv (-7) 3 * 3) ∧ mod (-7) 3 = Int.tmod (-7) 3 :=
  ⟨by decide, by decide, by decide,
    (C12_reduction_rule_amended (-7) 3 (by decide) (by decide) (by decide)
      (by decide)).2.1,
    (C12_reduction_rule_amended (-7) 3 (by decide) (by decide) (by decide)
      (by decide)).2.2.2.1⟩

/-- The operands of `mod` in a seeding call with a positive `int`. -/
theorem ranModArgs_seed (s x : Int) (hs : 0 < s) (hmax : s ≤ INT_MAX) :
    ranModArgs s x = [(s + 54773, 259200)] := by
  unfold INT_MAX at hmax
  unfold ranModArgs
  rw [if_pos hs]
  unfold inc1 mod1
  rw [wrapLong_of_range _ (by omega) (by omega)]

/-- The operands of `mod` in a generate call from a state in `[0, 259200)`. -/
theorem ranModArgs_gen (v x : Int) (hv : v ≤ 0) (h0 : 0 ≤ x) (h1 : x < 259200) :
    ranModArgs v x =
      [(7141 * x + 54773, 259200), ((7141 * x + 54773) % 259200, 256)] := by
  unfold ranModArgs
  rw [if_neg (by omega)]
  unfold num1 inc1 mod1
  rw [wrapLong_of_range (7141 * x) (by omega) (by omega),
    wrapLong_of_range (7141 * x + 54773) (by omega) (by omega)]
  dsimp only
  rw [mod_eq_emod _ _ (by omega) (by omega) (by decide)]

/-- C13: for every positive seed `s` and every state reached after seeding with it, every
dividend passed to `mod` (`s + 54773` when seeding, `7141*state + 54773` and the new state
when generating) is non-negative, and at each of these calls `mod` gives the floor-mod. -/
theorem C13_nonnegative_dividends (s x : Int) (n : Nat) (hs : 0 < s) (hmax : s ≤ INT_MAX) :
    ranModArgs s x = [(s + 54773, 259200)] ∧
    ranModArgs 0 (genState n (ran s x).2) =
      [(7141 * genState n (ran s x).2 + 54773, 259200),
        ((7141 * genState n (ran s x).2 + 54773) % 259200, 256)] ∧
    (∀ p ∈ ranModArgs s x ++ ranModArgs 0 (genState n (ran s x).2),
      0 ≤ p.1 ∧ mod p.1 p.2 = Int.fmod p.1 p.2) := by
  have hr := (ran_seed_range s x hs hmax).1
  have hg := genState_range n (ran s x).2 hr.1 hr.2
  have h1 := ranModArgs_seed s x hs hmax
  have h2 := ranModArgs_gen 0 (genState n (ran s x).2) (le_refl 0) hg.1 hg.2
  refine ⟨h1, h2, ?_⟩
  intro p hp
  rw [h1, h2] at hp
  unfold INT_MAX at hmax
  simp only [List.cons_append, List.nil_append, List.mem_cons, List.mem_nil_iff,
    or_false] at hp
  rcases hp with hp | hp | hp
  · rw [hp]
    dsimp only
    rw [mod_eq_emod _ _ (by omega) (by omega) (by decide), Int.fmod_eq_emod _ (by decide)]
    exact ⟨by omega, rfl⟩
  · rw [hp]
    dsimp only
    rw [mod_eq_emod _ _ (by omega) (by omega) (by decide), Int.fmod_eq_emod _ (by decide)]
    exact ⟨by omega, rfl⟩
  · rw [hp]
    dsimp only
    rw [mod_eq_emod _ _ (by omega) (by omega) (by decide), Int.fmod_eq_emod _ (by decide)]
    exact ⟨by omega, rfl⟩

/-- C13 at seed 42, prior state 7, after 3 generate steps. -/
theorem C13_nonnegative_dividends_witness :
    (0 : Int) < 42 ∧ (42 : Int) ≤ INT_MAX ∧
    ∀ p ∈ ranModArgs 42 7 ++ ranModArgs 0 (genState 3 (ran 42 7).2),
      0 ≤ p.1 ∧ mod p.1 p.2 = Int.fmod p.1 p.2 :=
  ⟨by decide, by decide,
    (C13_nonnegative_dividends 42 7 3 (by decide) (by decide)).2.2⟩

/-- C14: for every state `x` in `[0, 259200)` the intermediate value `7141*x + 54773` is
at most 1850994832, which is below `2^31`; so the generate step computed with a 32-bit
`long` gives the same state and byte as unbounded integer arithmetic, and the same as
with a 64-bit `long`. -/
theorem C14_word32_sufficient (x : Int) (h0 : 0 ≤ x) (h1 : x < 259200) :
    7141 * x + 54773 ≤ 1850994832 ∧ (1850994832 : Int) < 2 ^ 31 ∧
    7141 * (259199 : Int) + 54773 = 1850994832 ∧
    ran32 0 x = ((7141 * x + 54773) % 259200 % 256, (7141 * x + 54773) % 259200) ∧
    ran32 0 x = ran 0 x := by
  have hw1 : wrapInt (num1 * x) = 7141 * x := by
    unfold num1
    exact wrapInt_of_range _ (by omega) (by omega)
  have hw2 : wrapInt (7141 * x + inc1) = 7141 * x + 54773 := by
    unfold inc1
    exact wrapInt_of_range _ (by omega) (by omega)
  have hm : mod32 (7141 * x + 54773) mod1 = (7141 * x + 54773) % 259200 :=
    mod32_eq_emod _ _ (by omega) (by omega) (by decide)
  have hb : mod32 ((7141 * x + 54773) % 259200) 256 = (7141 * x + 54773) % 259200 % 256 :=
    mod32_eq_emod _ _ (by omega) (by omega) (by decide)
  have h32 : ran32 0 x =
      ((7141 * x + 54773) % 259200 % 256, (7141 * x + 54773) % 259200) := by
    unfold ran32
    rw [if_neg (by omega), hw1, hw2, hm]
    dsimp only
    rw [hb, wrapInt_of_range _ (by omega) (by omega)]
  refine ⟨by omega, by norm_num, by norm_num, h32, ?_⟩
  rw [h32, ran_gen_eq 0 x (le_refl 0) h0 h1]

/-- C14 at the largest state, 259199, where the bound is attained. -/
theorem C14_word32_sufficient_witness :
    (0 : Int) ≤ 259199 ∧ (259199 : Int) < 259200 ∧ ran32 0 259199 = ran 0 259199 :=
  ⟨by decide, by decide, (C14_word32_sufficient 259199 (by decide) (by decide)).2.2.2.2⟩

/-! ## Facts about the period of the generator and about runs that share a state -/

theorem genState_add (a b : Nat) (x : Int) :
    genState (a + b) x = genState a (genState b x) := by
  induction a with
  | zero =>
    rw [Nat.zero_add]
    rfl
  | succ a ih =>
    rw [Nat.add_right_comm]
    show (ran 0 (genState (a + b) x)).2 = (ran 0 (genState a (genState b x))).2
    rw [ih]

/-- One generate step multiplies `7140*state + 54773` by 7141 modulo `7140 * 259200`. -/
theorem affine_step (x : Int) (h0 : 0 ≤ x) (h1 : x < 259200) :
    7140 * (ran 0 x).2 + 54773 ≡ 7141 * (7140 * x + 54773) [ZMOD 1850688000] := by
  rw [ran_gen_eq 0 x (le_refl 0) h0 h1]
  dsimp only
  apply Int.ModEq.symm
  rw [Int.modEq_iff_dvd]
  exact ⟨-((7141 * x + 54773) / 259200), by omega⟩

theorem affine_iter (n : Nat) (x : Int) (h0 : 0 ≤ x) (h1 : x < 259200) :
    7140 * genState n x + 54773 ≡ 7141 ^ n * (7140 * x + 54773) [ZMOD 1850688000] := by
  induction n with
  | zero =>
    show 7140 * x + 54773 ≡ 7141 ^ 0 * (7140 * x + 54773) [ZMOD 1850688000]
    rw [pow_zero, one_mul]
  | succ n ih =>
    have hr := genState_range n x h0 h1
    have hs := affine_step (genState n x) hr.1 hr.2
    have hm := Int.ModEq.mul_left 7141 ih
    have he : (7141 : Int) * (7141 ^ n * (7140 * x + 54773)) =
        7141 ^ (n + 1) * (7140 * x + 54773) := by ring
    rw [he] at hm
    exact Int.ModEq.trans hs hm

/-- The multiplier to the power 259200 is 1 modulo `7140 * 259200`. -/
theorem pow_full : 7141 ^ 259200 ≡ 1 [MOD 1850688000] := by decide!

/-- The multiplier to the power `259200 / 2` is not 1 modulo `7140 * 259200`. -/
theorem pow_half : ¬ 7141 ^ 129600 ≡ 1 [MOD 1850688000] := by decide!

/-- The multiplier to the power `259200 / 3` is not 1 modulo `7140 * 259200`. -/
theorem pow_third : ¬ 7141 ^ 86400 ≡ 1 [MOD 1850688000] := by decide!

/-- The multiplier to the power `259200 / 5` is not 1 modulo `7140 * 259200`. -/
theorem pow_fifth : ¬ 7141 ^ 51840 ≡ 1 [MOD 1850688000] := by decide!

theorem prime_dvd_modulus (p : Nat) (hp : p.Prime) (hd : p ∣ 259200) :
    p = 2 ∨ p = 3 ∨ p = 5 := by
  have hf : (259200 : Nat) = 2 ^ 7 * 3 ^ 4 * 5 ^ 2 := by norm_num
  rw [hf] at hd
  rcases (Nat.Prime.dvd_mul hp).1 hd with h | h
  · rcases (Nat.Prime.dvd_mul hp).1 h with h | h
    · exact Or.inl ((Nat.prime_dvd_prime_iff_eq hp Nat.prime_two).1 (hp.dvd_of_dvd_pow h))
    · exact Or.inr (Or.inl
        ((Nat.prime_dvd_prime_iff_eq hp Nat.prime_three).1 (hp.dvd_of_dvd_pow h)))
  · exact Or.inr (Or.inr
      ((Nat.prime_dvd_prime_iff_eq hp Nat.prime_five).1 (hp.dvd_of_dvd_pow h)))

theorem zmod_pow_eq_one_iff (n : Nat) :
    (7141 : ZMod 1850688000) ^ n = 1 ↔ 7141 ^ n ≡ 1 [MOD 1850688000] := by
  rw [← ZMod.natCast_eq_natCast_iff]
  push_cast
  rfl

theorem orderOf_multiplier : orderOf (7141 : ZMod 1850688000) = 259200 := by
  apply orderOf_eq_of_pow_and_pow_div_prime (by norm_num)
  · exact (zmod_pow_eq_one_iff 259200).2 pow_full
  · intro p hp hd
    rw [Ne, zmod_pow_eq_one_iff]
    rcases prime_dvd_modulus p hp hd with h | h | h
    · have e : 259200 / p = 129600 := by rw [h]
      rw [e]
      exact pow_half
    · have e : 259200 / p = 86400 := by rw [h]
      rw [e]
      exact pow_third
    · have e : 259200 / p = 51840 := by rw [h]
      rw [e]
      exact pow_fifth

theorem isUnit_affine (k : Nat) :
    IsUnit (((7140 * k + 54773 : Nat) : ZMod 1850688000)) := by
  rw [ZMod.isUnit_iff_coprime]
  have h1 : Nat.Coprime (7140 * k + 54773) 7140 := by
    rw [Nat.add_comm, Nat.coprime_add_mul_left_left]
    decide
  have h2 : Nat.Coprime (7140 * k + 54773) (7140 ^ 8) := Nat.Coprime.pow_right 8 h1
  exact Nat.Coprime.coprime_dvd_right (by norm_num) h2


/-- The affine invariant read in `ZMod (7140 * 259200)`, for a state given as a natural. -/
theorem affine_iter_zmod (n k : Nat) (hk : k < 259200) :
    ((7140 * (genState n k).toNat + 54773 : Nat) : ZMod 1850688000) =
      (7141 : ZMod 1850688000) ^ n * ((7140 * k + 54773 : Nat) : ZMod 1850688000) := by
  have hr := genState_range n (k : Int) (by omega) (by omega)
  have h := affine_iter n (k : Int) (by omega) (by omega)
  have hc := (ZMod.intCast_eq_intCast_iff _ _ 1850688000).2 h
  have ht : ((genState n k).toNat : Int) = genState n k := Int.toNat_of_nonneg hr.1
  have hz : (((genState n k).toNat : Nat) : ZMod 1850688000) =
      ((genState n k : Int) : ZMod 1850688000) := by
    rw [← ht]
    simp
  push_cast at hc ⊢
  rw [hz]
  exact hc

/-- After 259200 generate steps the state is back where it started. -/
theorem genState_period (x : Int) (h0 : 0 ≤ x) (h1 : x < 259200) :
    genState 259200 x = x := by
  have hr := genState_range 259200 x h0 h1
  have h := affine_iter 259200 x h0 h1
  have hp : (7141 : Int) ^ 259200 ≡ 1 [ZMOD 1850688000] := by
    have := (Int.natCast_modEq_iff).2 pow_full
    simp only [Nat.cast_pow, Nat.cast_ofNat, Nat.cast_one] at this
    exact this
  have h2 : 7140 * genState 259200 x + 54773 ≡ 7140 * x + 54773 [ZMOD 1850688000] := by
    have := Int.ModEq.trans h (Int.ModEq.mul_right (7140 * x + 54773) hp)
    rw [one_mul] at this
    exact this
  rw [Int.modEq_iff_dvd] at h2
  obtain ⟨c, hc⟩ := h2
  omega

/-- Two states reached after `i < j` steps, less than 259200 steps apart, differ. -/
theorem genState_ne (x : Int) (h0 : 0 ≤ x) (h1 : x < 259200) (i j : Nat) (hij : i < j)
    (hj : j < i + 259200) : genState i x ≠ genState j x := by
  intro he
  obtain ⟨k, rfl⟩ := Int.eq_ofNat_of_zero_le h0
  have hk : k < 259200 := by omega
  have hi := affine_iter_zmod i k hk
  have hjz := affine_iter_zmod j k hk
  rw [← he, hi] at hjz
  have hsplit : j = i + (j - i) := by omega
  rw [hsplit, pow_add, mul_assoc] at hjz
  have hu : IsUnit ((7141 : ZMod 1850688000) ^ i) :=
    IsUnit.pow i (isUnit_ofPowEqOne ((zmod_pow_eq_one_iff 259200).2 pow_full) (by norm_num))
  have h3 := hu.mul_left_cancel hjz
  have h4 : (1 : ZMod 1850688000) * ((7140 * k + 54773 : Nat) : ZMod 1850688000) =
      (7141 : ZMod 1850688000) ^ (j - i) * ((7140 * k + 54773 : Nat) : ZMod 1850688000) := by
    rw [one_mul]
    exact h3
  have h5 := (isUnit_affine k).mul_right_cancel h4
  have h6 : orderOf (7141 : ZMod 1850688000) ∣ j - i := orderOf_dvd_iff_pow_eq_one.2 h5.symm
  rw [orderOf_multiplier] at h6
  have := Nat.le_of_dvd (by omega) h6
  omega


/-- Every state of `[0, 259200)` is reached, within 259200 steps, from any state of it. -/
theorem genState_surj (x : Int) (h0 : 0 ≤ x) (h1 : x < 259200) (y : Int) (hy0 : 0 ≤ y)
    (hy1 : y < 259200) : ∃ n : Nat, n < 259200 ∧ genState n x = y := by
  have hr : ∀ i : Nat, (genState i x).toNat < 259200 := by
    intro i
    have := genState_range i x h0 h1
    omega
  have hinj : Function.Injective
      (fun i : Fin 259200 => (⟨(genState i.1 x).toNat, hr i.1⟩ : Fin 259200)) := by
    intro i j hij
    have hv : (genState i.1 x).toNat = (genState j.1 x).toNat := congrArg Fin.val hij
    have hi := genState_range i.1 x h0 h1
    have hj := genState_range j.1 x h0 h1
    have he : genState i.1 x = genState j.1 x := by omega
    apply Fin.ext
    by_contra hne
    rcases Nat.lt_or_gt_of_ne hne with hlt | hgt
    · exact genState_ne x h0 h1 i.1 j.1 hlt (by omega) he
    · exact genState_ne x h0 h1 j.1 i.1 hgt (by omega) he.symm
  obtain ⟨i, hi⟩ := (Finite.injective_iff_surjective.1 hinj) ⟨y.toNat, by omega⟩
  have hv : (genState i.1 x).toNat = y.toNat := congrArg Fin.val hi
  have hg := genState_range i.1 x h0 h1
  exact ⟨i.1, i.2, by omega⟩

/-- The byte at index `k` of the first `N` generated bytes. -/
theorem genBytes_get (N : Nat) (x : Int) :
    ∀ k : Nat, k < N → (genBytes N x)[k]? = some (genByte k x) := by
  induction N with
  | zero =>
    intro k hk
    omega
  | succ N ih =>
    intro k hk
    rw [genBytes_succ_last]
    by_cases hlt : k < N
    · rw [List.getElem?_append_left (by rw [genBytes_length]; exact hlt)]
      exact ih k hlt
    · have hk2 : k = (genBytes N x).length := by
        rw [genBytes_length]
        omega
      rw [hk2, List.getElem?_concat_length, genBytes_length]
      rfl

/-- The value returned by a generate call is the new state modulo 256. -/
theorem genByte_eq (n : Nat) (x : Int) (h0 : 0 ≤ x) (h1 : x < 259200) :
    genByte n x = genState (n + 1) x % 256 := by
  have hr := genState_range n x h0 h1
  unfold genByte
  show (ran 0 (genState n x)).1 = (ran 0 (genState n x)).2 % 256
  rw [ran_gen_eq 0 _ (le_refl 0) hr.1 hr.2]

/-- The byte stream has period 259200. -/
theorem genByte_period (n : Nat) (x : Int) (h0 : 0 ≤ x) (h1 : x < 259200) :
    genByte (n + 259200) x = genByte n x := by
  have hr := genState_range n x h0 h1
  unfold genByte
  rw [Nat.add_comm n 259200, genState_add, genState_period _ hr.1 hr.2]

theorem pow_128 : 7141 ^ 128 ≡ 1 [MOD 913920] := by decide!

/-- After 128 generate steps the low seven bits of the state are back. -/
theorem genState_low7 (x : Int) (h0 : 0 ≤ x) (h1 : x < 259200) :
    genState 128 x % 128 = x % 128 := by
  have h := Int.ModEq.of_dvd (by norm_num : (913920 : Int) ∣ 1850688000)
    (affine_iter 128 x h0 h1)
  have hp : (7141 : Int) ^ 128 ≡ 1 [ZMOD 913920] := by
    have := (Int.natCast_modEq_iff).2 pow_128
    simp only [Nat.cast_pow, Nat.cast_ofNat, Nat.cast_one] at this
    exact this
  have h2 : 7140 * genState 128 x + 54773 ≡ 7140 * x + 54773 [ZMOD 913920] := by
    have := Int.ModEq.trans h (Int.ModEq.mul_right (7140 * x + 54773) hp)
    rw [one_mul] at this
    exact this
  rw [Int.modEq_iff_dvd] at h2
  obtain ⟨c, hc⟩ := h2
  omega

theorem written_progress (m : Int) : written [Event.stdoutProgress m] = [] := rfl

theorem written_fclose : written [Event.fclose] = [] := rfl

/-- What a loop step of a running session does to `seed1`, the `putc` count, the control
state and the bytes written; `i`, `meg` and the progress lines play no part in it. -/
theorem loopStep_fields (env : Env) (s : Session) (hl : s.status = Status.looping) :
    (loopStep env s).seed1 = (ran 0 s.seed1).2 ∧
    (loopStep env s).puts = s.puts + 1 ∧
    (loopStep env s).status =
      (if putc (ran 0 s.seed1).1 (env.putOk s.puts) ≠ EOF then Status.looping
        else Status.returned) ∧
    written (loopStep env s).trace =
      written s.trace ++ written [Event.putc (ran 0 s.seed1).1 (env.putOk s.puts)] := by
  unfold loopStep
  rw [if_pos hl]
  dsimp only
  split_ifs
  · refine ⟨rfl, rfl, rfl, ?_⟩
    simp only [written_append, written_progress, List.append_nil]
    rfl
  · refine ⟨rfl, rfl, rfl, ?_⟩
    simp only [written_append]
    rfl
  · refine ⟨rfl, rfl, rfl, ?_⟩
    simp only [written_append, written_fclose, List.append_nil]
    rfl

/-- A loop step treats alike two sessions that agree on `seed1`, the number of `putc`
calls, the control state and the bytes written. -/
theorem loopStep_written_congr (env : Env) (s t : Session) (h1 : s.seed1 = t.seed1)
    (h2 : s.puts = t.puts) (h3 : s.status = t.status)
    (h4 : written s.trace = written t.trace) :
    (loopStep env s).seed1 = (loopStep env t).seed1 ∧
    (loopStep env s).puts = (loopStep env t).puts ∧
    (loopStep env s).status = (loopStep env t).status ∧
    written (loopStep env s).trace = written (loopStep env t).trace := by
  by_cases hl : s.status = Status.looping
  · have hl2 : t.status = Status.looping := by rw [← h3]; exact hl
    obtain ⟨a1, a2, a3, a4⟩ := loopStep_fields env s hl
    obtain ⟨b1, b2, b3, b4⟩ := loopStep_fields env t hl2
    rw [a1, a2, a3, a4, b1, b2, b3, b4, h1, h2, h4]
    exact ⟨rfl, rfl, rfl, rfl⟩
  · have hl2 : t.status ≠ Status.looping := by rw [← h3]; exact hl
    rw [loopStep_stopped env s hl, loopStep_stopped env t hl2]
    exact ⟨h1, h2, h3, h4⟩

theorem runLoop_written_congr (env : Env) (n : Nat) :
    ∀ s t : Session, s.seed1 = t.seed1 → s.puts = t.puts → s.status = t.status →
      written s.trace = written t.trace →
      written (runLoop env n s).trace = written (runLoop env n t).trace := by
  induction n with
  | zero =>
    intro s t _ _ _ h4
    exact h4
  | succ n ih =>
    intro s t h1 h2 h3 h4
    obtain ⟨g1, g2, g3, g4⟩ := loopStep_written_congr env s t h1 h2 h3 h4
    exact ih (loopStep env s) (loopStep env t) g1 g2 g3 g4

/-- Two seed arguments that leave the same state make the program write the same bytes. -/
theorem written_main_congr (env : Env) (prog path a b : String) (fuel : Nat)
    (h : (ran (atoi a) 0).2 = (ran (atoi b) 0).2) :
    written (main env [prog, path, a] fuel).trace =
      written (main env [prog, path, b] fuel).trace := by
  by_cases ho : env.openOk path = true
  · unfold main
    apply runLoop_written_congr
    · rw [mainStart_open env prog path a ho, mainStart_open env prog path b ho]
      exact h
    · rw [mainStart_open env prog path a ho, mainStart_open env prog path b ho]
    · rw [mainStart_open env prog path a ho, mainStart_open env prog path b ho]
    · rw [mainStart_open env prog path a ho, mainStart_open env prog path b ho]
      simp [written, Event.writtenByte]
  · have e : mainStart env [prog, path, a] = mainStart env [prog, path, b] := by
      unfold mainStart
      simp [ho]
    unfold main
    rw [e]

/-- While every `putc` succeeds, the bytes written are the generated bytes. -/
theorem written_main_ok (env : Env) (prog path arg : String) (N : Nat)
    (hopen : env.openOk path = true) (hok : ∀ k, k < N → env.putOk k = true) :
    written (main env [prog, path, arg] N).trace = genBytes N (ran (atoi arg) 0).2 := by
  have hr := mainStart_seed1_range arg
  have hst := mainStart_open env prog path arg hopen
  obtain ⟨_, _, _, iw, _⟩ := runLoop_ok env (mainStart env [prog, path, arg]) N
    (by rw [hst]) (by rw [hst]) (by rw [hst]) (by rw [hst]; exact hr.1)
    (by rw [hst]; exact hr.2) hok
  unfold main
  rw [iw, hst]
  simp [written, Event.writtenByte]

/-! ## Period, seed aliasing, non-positive seeds, low bits -/

/-- C15: the generate step `x -> (7141*x + 54773) mod 259200` is a single cycle through
`[0, 259200)`: from every state `x` of that range the next 259200 states are pairwise
distinct, the 259200th is `x` again, and every state of the range is reached; hence for
every positive seed the byte stream, generated or written, has period 259200. -/
theorem C15_full_period (x : Int) (h0 : 0 ≤ x) (h1 : x < 259200) :
    genState 259200 x = x ∧
    (∀ i j : Nat, 1 ≤ i → i < j → j ≤ 259200 → genState i x ≠ genState j x) ∧
    (∀ n : Nat, genState (n + 1) x = (7141 * genState n x + 54773) % 259200) ∧
    (∀ y : Int, 0 ≤ y → y < 259200 → ∃ n : Nat, n < 259200 ∧ genState n x = y) ∧
    (∀ (s y : Int) (n : Nat), 0 < s → s ≤ INT_MAX →
      genByte (n + 259200) (ran s y).2 = genByte n (ran s y).2) ∧
    (∀ (env : Env) (prog path arg : String) (n N : Nat), env.openOk path = true →
      0 < atoi arg → (∀ k, k < N → env.putOk k = true) → n + 259200 < N →
      (written (main env [prog, path, arg] N).trace)[n + 259200]? =
        (written (main env [prog, path, arg] N).trace)[n]?) := by
  refine ⟨genState_period x h0 h1, ?_, ?_, genState_surj x h0 h1, ?_, ?_⟩
  · intro i j hi hij hj
    exact genState_ne x h0 h1 i j hij (by omega)
  · intro n
    have hr := genState_range n x h0 h1
    show (ran 0 (genState n x)).2 = _
    rw [ran_gen_eq 0 _ (le_refl 0) hr.1 hr.2]
  · intro s y n hs hmax
    have hr := (ran_seed_range s y hs hmax).1
    exact genByte_period n _ hr.1 hr.2
  · intro env prog path arg n N hopen _ hok hN
    have hr := mainStart_seed1_range arg
    rw [written_main_ok env prog path arg N hopen hok,
      genBytes_get N _ (n + 259200) hN, genBytes_get N _ n (by omega),
      genByte_period n _ hr.1 hr.2]

/-- C15 from the state 54778 left by seed 5. -/
theorem C15_full_period_witness :
    (0 : Int) ≤ 54778 ∧ (54778 : Int) < 259200 ∧ genState 259200 54778 = 54778 ∧
    genState 1 54778 ≠ genState 259200 54778 :=
  ⟨by decide, by decide, (C15_full_period 54778 (by decide) (by decide)).1,
    (C15_full_period 54778 (by decide) (by decide)).2.1 1 259200 (le_refl 1) (by decide)
      (le_refl 259200)⟩

/-- C16: two positive seeds `s` and `t` that are congruent modulo 259200 leave the same
state and give the same generated bytes of every length and the same bytes accepted by
`putc`; the byte streams obtained from positive seeds form a finite set of at most 259200
elements. -/
theorem C16_seed_aliasing (s t x y : Int) (N : Nat) (hs : 0 < s) (hsmax : s ≤ INT_MAX)
    (ht : 0 < t) (htmax : t ≤ INT_MAX) (hst : s % 259200 = t % 259200) :
    (ran s x).2 = (ran t y).2 ∧
    genBytes N (ran s x).2 = genBytes N (ran t y).2 ∧
    (∀ (env : Env) (prog path a b : String) (fuel : Nat), atoi a = s → atoi b = t →
      written (main env [prog, path, a] fuel).trace =
        written (main env [prog, path, b] fuel).trace) ∧
    Set.Finite {f : Nat → List Int |
      ∃ u v : Int, 0 < u ∧ u ≤ INT_MAX ∧ f = fun n => genBytes n (ran u v).2} ∧
    Set.ncard {f : Nat → List Int |
      ∃ u v : Int, 0 < u ∧ u ≤ INT_MAX ∧ f = fun n => genBytes n (ran u v).2} ≤ 259200 := by
  have hstate : ∀ x y : Int, (ran s x).2 = (ran t y).2 := by
    intro x y
    rw [ran_seed_eq s x hs hsmax, ran_seed_eq t y ht htmax]
    dsimp only
    omega
  refine ⟨hstate x y, ?_, ?_, ?_⟩
  · rw [hstate x y]
  · intro env prog path a b fuel ha hb
    apply written_main_congr
    rw [ha, hb]
    exact hstate 0 0
  · have hsub : {f : Nat → List Int |
        ∃ u v : Int, 0 < u ∧ u ≤ INT_MAX ∧ f = fun n => genBytes n (ran u v).2} ⊆
        (fun (r : Int) (n : Nat) => genBytes n r) '' Set.Ico (0 : Int) 259200 := by
      intro f hf
      obtain ⟨u, v, hu, humax, hfe⟩ := hf
      have hr := (ran_seed_range u v hu humax).1
      exact ⟨(ran u v).2, ⟨hr.1, hr.2⟩, hfe.symm⟩
    have hfin : (Set.Ico (0 : Int) 259200).Finite := Set.finite_Ico 0 259200
    have hcard : (Set.Ico (0 : Int) 259200).ncard = 259200 := by
      rw [← Finset.coe_Ico, Set.ncard_coe_Finset, Int.card_Ico]
      rfl
    refine ⟨(hfin.image _).subset hsub, ?_⟩
    calc Set.ncard {f : Nat → List Int |
          ∃ u v : Int, 0 < u ∧ u ≤ INT_MAX ∧ f = fun n => genBytes n (ran u v).2}
        ≤ ((fun (r : Int) (n : Nat) => genBytes n r) '' Set.Ico (0 : Int) 259200).ncard :=
          Set.ncard_le_ncard hsub (hfin.image _)
      _ ≤ (Set.Ico (0 : Int) 259200).ncard := Set.ncard_image_le hfin
      _ = 259200 := hcard

/-- C16 for the seeds 5 and 259205. -/
theorem C16_seed_aliasing_witness :
    (5 : Int) % 259200 = 259205 % 259200 ∧ (ran 5 0).2 = (ran 259205 77).2 ∧
    genBytes 6 (ran 5 0).2 = genBytes 6 (ran 259205 77).2 :=
  ⟨by decide,
    (C16_seed_aliasing 5 259205 0 77 6 (by decide) (by decide) (by decide) (by decide)
      (by decide)).1,
    (C16_seed_aliasing 5 259205 0 77 6 (by decide) (by decide) (by decide) (by decide)
      (by decide)).2.1⟩

/-- C17: for every seed value `v <= 0`, the seeding call `ran(v)` of `main` is a generate
step on the zero-initialised state and leaves 54773, the state that seed 259200 leaves;
so the bytes the program writes are the same as for seed 259200, and the same for all
non-positive seeds; the non-numeric argument `abc` gives the value 0. -/
theorem C17_nonpositive_seed (v : Int) (hv : v ≤ 0) :
    ran v 0 = ran 0 0 ∧
    (ran v 0).2 = 54773 ∧
    (∀ x : Int, (ran 259200 x).2 = 54773) ∧
    (∀ (env : Env) (prog path a b : String) (fuel : Nat), atoi a = v → atoi b = 259200 →
      written (main env [prog, path, a] fuel).trace =
        written (main env [prog, path, b] fuel).trace) ∧
    (∀ (env : Env) (prog path a b : String) (fuel : Nat), atoi a = v → atoi b ≤ 0 →
      written (main env [prog, path, a] fuel).trace =
        written (main env [prog, path, b] fuel).trace) ∧
    atoi "abc" = 0 := by
  have hgen : ∀ w : Int, w ≤ 0 → ran w 0 = (245, 54773) := by
    intro w hw
    rw [ran_gen_eq w 0 hw (le_refl 0) (by decide)]
    rfl
  have hseed : ∀ x : Int, (ran 259200 x).2 = 54773 := by
    intro x
    rw [ran_seed_eq 259200 x (by decide) (by decide)]
    rfl
  refine ⟨?_, ?_, hseed, ?_, ?_, by decide⟩
  · rw [hgen v hv, hgen 0 (le_refl 0)]
  · rw [hgen v hv]
  · intro env prog path a b fuel ha hb
    apply written_main_congr
    rw [ha, hb, hgen v hv, hseed 0]
  · intro env prog path a b fuel ha hb
    apply written_main_congr
    rw [ha, hgen v hv, hgen (atoi b) hb]

/-- C17 for `wipe testfile -1` against `wipe testfile 259200`, four accepted writes. -/
theorem C17_nonpositive_seed_witness :
    (-1 : Int) ≤ 0 ∧ (ran (-1) 0).2 = 54773 ∧
    written (main (envFull 4) ["wipe", "testfile", "-1"] 9).trace =
      written (main (envFull 4) ["wipe", "testfile", "259200"] 9).trace :=
  ⟨by decide, (C17_nonpositive_seed (-1) (by decide)).2.1,
    (C17_nonpositive_seed (-1) (by decide)).2.2.2.1 (envFull 4) "wipe" "testfile" "-1"
      "259200" 9 (by decide) (by decide)⟩

/-- C18: 128 divides 259200, and for every positive seed and every `n` the low seven bits
of output byte `n + 128` equal those of output byte `n`, in the generated stream and in
the bytes the program writes. -/
theorem C18_low_bits_period (s x : Int) (n : Nat) (hs : 0 < s) (hmax : s ≤ INT_MAX) :
    (128 : Int) ∣ 259200 ∧
    genByte (n + 128) (ran s x).2 % 128 = genByte n (ran s x).2 % 128 ∧
    (∀ (env : Env) (prog path arg : String) (N : Nat), env.openOk path = true →
      atoi arg = s → (∀ k, k < N → env.putOk k = true) → n + 128 < N →
      Option.map (fun b : Int => b % 128)
          (written (main env [prog, path, arg] N).trace)[n + 128]? =
        Option.map (fun b : Int => b % 128)
          (written (main env [prog, path, arg] N).trace)[n]?) := by
  have hbyte : ∀ z : Int, 0 ≤ z → z < 259200 →
      genByte (n + 128) z % 128 = genByte n z % 128 := by
    intro z hz0 hz1
    have hr := genState_range (n + 1) z hz0 hz1
    have hr2 := genState_range (n + 128 + 1) z hz0 hz1
    have hl := genState_low7 (genState (n + 1) z) hr.1 hr.2
    have he : n + 128 + 1 = 128 + (n + 1) := by omega
    rw [← genState_add, ← he] at hl
    rw [genByte_eq (n + 128) z hz0 hz1, genByte_eq n z hz0 hz1]
    omega
  have hr := (ran_seed_range s x hs hmax).1
  refine ⟨by norm_num, hbyte _ hr.1 hr.2, ?_⟩
  intro env prog path arg N hopen _ hok hN
  have hr0 := mainStart_seed1_range arg
  rw [written_main_ok env prog path arg N hopen hok,
    genBytes_get N _ (n + 128) hN, genBytes_get N _ n (by omega)]
  show some (genByte (n + 128) (ran (atoi arg) 0).2 % 128) =
    some (genByte n (ran (atoi arg) 0).2 % 128)
  rw [hbyte _ hr0.1 hr0.2]

/-- C18 at seed 42, prior state 0, byte index 3. -/
theorem C18_low_bits_period_witness :
    (0 : Int) < 42 ∧ (42 : Int) ≤ INT_MAX ∧
    genByte (3 + 128) (ran 42 0).2 % 128 = genByte 3 (ran 42 0).2 % 128 :=
  ⟨by decide, by decide, (C18_low_bits_period 42 0 3 (by decide) (by decide)).2.1⟩

/-! ## The target behind the stream -/

/-- A loop step reads the environment only at the index of the `putc` call it makes. -/
theorem loopStep_oracle (env1 env2 : Env) (s : Session)
    (h : env1.putOk s.puts = env2.putOk s.puts) : loopStep env1 s = loopStep env2 s := by
  unfold loopStep
  rw [h]

theorem genBytes_add (a : Nat) :
    ∀ (b : Nat) (x : Int), genBytes (a + b) x = genBytes a x ++ genBytes b (genState a x) := by
  induction a with
  | zero =>
    intro b x
    rw [Nat.zero_add]
    rfl
  | succ a ih =>
    intro b x
    rw [Nat.add_right_comm]
    show (ran 0 x).1 :: genBytes (a + b) (ran 0 x).2 =
      ((ran 0 x).1 :: genBytes a (ran 0 x).2) ++ genBytes b (genState (a + 1) x)
    rw [ih b (ran 0 x).2, genState_succ_first]
    rfl

/-- The first `k` of the first `n` generated bytes are the first `k` generated bytes. -/
theorem genBytes_take (k n : Nat) (x : Int) (h : k ≤ n) :
    (genBytes n x).take k = genBytes k x := by
  obtain ⟨d, rfl⟩ := Nat.exists_eq_add_of_le h
  rw [genBytes_add]
  exact List.take_left' (genBytes_length k x)

theorem bufRun_succ_last (B cap n : Nat) :
    ∀ b : Session × OutStream, bufRun B cap (n + 1) b = bufStep B cap (bufRun B cap n b) := by
  induction n with
  | zero =>
    intro b
    rfl
  | succ n ih =>
    intro b
    show bufRun B cap (n + 1) (bufStep B cap b) = _
    rw [ih (bufStep B cap b)]
    rfl

theorem bufStep_stopped (B cap : Nat) (b : Session × OutStream)
    (h : b.1.status ≠ Status.looping) : bufStep B cap b = b := by
  unfold bufStep
  rw [if_neg h]

theorem bufRun_stopped (B cap n : Nat) (b : Session × OutStream)
    (h : b.1.status ≠ Status.looping) : bufRun B cap n b = b := by
  induction n with
  | zero => rfl
  | succ n ih =>
    show bufRun B cap n (bufStep B cap b) = b
    rw [bufStep_stopped B cap b h, ih]

theorem bufRun_add (B cap a c : Nat) :
    ∀ b : Session × OutStream, bufRun B cap (a + c) b = bufRun B cap c (bufRun B cap a b) := by
  induction a with
  | zero =>
    intro b
    rw [Nat.zero_add]
    rfl
  | succ a ih =>
    intro b
    rw [Nat.add_right_comm]
    show bufRun B cap (a + c) (bufStep B cap b) = bufRun B cap c (bufRun B cap a (bufStep B cap b))
    exact ih (bufStep B cap b)

/-- `putc` on a stream whose buffer has room. -/
theorem putc_room (B cap : Nat) (st : OutStream) (c : Int) (h : st.buf.length < B) :
    OutStream.putc B cap st c =
      ({ buf := st.buf ++ [c % 256], target := st.target }, c % 256) := by
  unfold OutStream.putc
  rw [if_pos h]

/-- `putc` on a stream whose buffer is full, when the target takes the whole buffer. -/
theorem putc_flush_ok (B cap : Nat) (st : OutStream) (c : Int) (h : ¬ st.buf.length < B)
    (hfit : st.target.length + st.buf.length ≤ cap) :
    OutStream.putc B cap st c =
      ({ buf := [c % 256], target := st.target ++ st.buf }, c % 256) := by
  unfold OutStream.putc OutStream.flush
  rw [if_neg h]
  dsimp only
  rw [if_pos (decide_eq_true hfit), List.take_of_length_le (by omega)]

/-- `putc` on a stream whose buffer is full, when the target does not take the whole
buffer: the result is `EOF` and the target keeps the part that fitted. -/
theorem putc_flush_fail (B cap : Nat) (st : OutStream) (c : Int) (h : ¬ st.buf.length < B)
    (hfit : ¬ st.target.length + st.buf.length ≤ cap) :
    OutStream.putc B cap st c =
      ({ buf := [], target := st.target ++ st.buf.take (cap - st.target.length) }, EOF) := by
  unfold OutStream.putc OutStream.flush
  rw [if_neg h]
  dsimp only
  rw [if_neg (by simpa using hfit)]


/-- A step on the buffered stream in which `putc` takes the byte is the step `loopStep`
in an environment whose `putc` succeeds at that index. -/
theorem bufStep_accept (B cap N : Nat) (b : Session × OutStream)
    (hl : b.1.status = Status.looping) (hN : b.1.puts < N)
    (hc : (OutStream.putc B cap b.2 (ran 0 b.1.seed1).1).2 = (ran 0 b.1.seed1).1 % 256) :
    bufStep B cap b =
      (loopStep (envFull N) b.1, (OutStream.putc B cap b.2 (ran 0 b.1.seed1).1).1) := by
  have hne : (ran 0 b.1.seed1).1 % 256 ≠ EOF := by
    unfold EOF
    omega
  have hor : loopStep (Env.mk (fun _ => true)
      (fun _ => decide ((ran 0 b.1.seed1).1 % 256 ≠ EOF))) b.1 =
      loopStep (envFull N) b.1 := by
    apply loopStep_oracle
    show decide ((ran 0 b.1.seed1).1 % 256 ≠ EOF) = decide (b.1.puts < N)
    rw [decide_eq_true hne, decide_eq_true hN]
  have hst : (loopStep (envFull N) b.1).status = Status.looping :=
    (loopStep_ok (envFull N) b.1 hl (decide_eq_true hN)).1
  unfold bufStep
  rw [if_pos hl]
  dsimp only
  rw [hc, hor, if_pos hst]

/-- A step on the buffered stream in which `putc` returns `EOF` is the step `loopStep`
in an environment whose `putc` fails at that index, followed by `fclose`. -/
theorem bufStep_reject (B cap N : Nat) (b : Session × OutStream)
    (hl : b.1.status = Status.looping) (hN : b.1.puts = N)
    (hc : (OutStream.putc B cap b.2 (ran 0 b.1.seed1).1).2 = EOF) :
    bufStep B cap b =
      (loopStep (envFull N) b.1,
        OutStream.fclose cap (OutStream.putc B cap b.2 (ran 0 b.1.seed1).1).1) := by
  have hf : (envFull N).putOk b.1.puts = false := by
    show decide (b.1.puts < N) = false
    rw [hN]
    simp
  have hor : loopStep (Env.mk (fun _ => true) (fun _ => decide (EOF ≠ EOF))) b.1 =
      loopStep (envFull N) b.1 := by
    apply loopStep_oracle
    rw [hf]
    simp
  have hst : (loopStep (envFull N) b.1).status ≠ Status.looping := by
    rw [loopStep_fail (envFull N) b.1 hl hf]
    simp
  unfold bufStep
  rw [if_pos hl]
  dsimp only
  rw [hc, hor, if_neg hst]

/-- While fewer than `(cap / B + 1) * B` bytes have been passed to `putc`, every `putc`
takes its byte: the session is the one of `main` with that many accepted writes, the
target holds whole buffers only, never more than `cap` bytes, and target and buffer
together hold the bytes generated so far. -/
theorem bufRun_ok (B cap : Nat) (hB : 0 < B) (s0 : Session)
    (hl : s0.status = Status.looping) (hp : s0.puts = 0) (hi : s0.i = 0)
    (h0 : 0 ≤ s0.seed1) (h1 : s0.seed1 < 259200) (n : Nat)
    (hn : n ≤ (cap / B + 1) * B) :
    (bufRun B cap n (s0, { buf := [], target := [] })).1 =
      runLoop (envFull ((cap / B + 1) * B)) n s0 ∧
    ∃ q r : Nat, n = q * B + r ∧ r ≤ B ∧ (0 < n → 0 < r) ∧ q * B ≤ cap ∧
      (bufRun B cap n (s0, { buf := [], target := [] })).2.target.length = q * B ∧
      (bufRun B cap n (s0, { buf := [], target := [] })).2.buf.length = r ∧
      (bufRun B cap n (s0, { buf := [], target := [] })).2.target ++
        (bufRun B cap n (s0, { buf := [], target := [] })).2.buf = genBytes n s0.seed1 := by
  induction n with
  | zero =>
    refine ⟨rfl, 0, 0, by simp, by omega, by omega, by simp, ?_, ?_, ?_⟩
    · show ([] : List Int).length = 0 * B
      simp
    · rfl
    · rfl
  | succ n ih =>
    obtain ⟨hs, q, r, hqr, hrB, hr0, hqc, htl, hbl, htb⟩ := ih (by omega)
    have hok : ∀ k, k < n → (envFull ((cap / B + 1) * B)).putOk k = true := by
      intro k hk
      exact decide_eq_true (by omega)
    obtain ⟨il, ip, is1, _, _⟩ :=
      runLoop_ok (envFull ((cap / B + 1) * B)) s0 n hl hp hi h0 h1 hok
    have hg := genState_range n s0.seed1 h0 h1
    have hbyte := (ran_gen_range 0 (genState n s0.seed1) (le_refl 0) hg.1 hg.2).2
    rw [bufRun_succ_last]
    generalize hb : bufRun B cap n (s0, { buf := [], target := [] }) = b at hs htl hbl htb
    have hbl2 : b.1.status = Status.looping := by rw [hs]; exact il
    have hbp : b.1.puts < (cap / B + 1) * B := by rw [hs, ip]; omega
    have hbs : b.1.seed1 = genState n s0.seed1 := by rw [hs]; exact is1
    have hmod : (ran 0 b.1.seed1).1 % 256 = (ran 0 (genState n s0.seed1)).1 := by
      rw [hbs]
      exact Int.emod_eq_of_lt hbyte.1 hbyte.2
    by_cases hroom : b.2.buf.length < B
    · have hput := putc_room B cap b.2 (ran 0 b.1.seed1).1 hroom
      rw [bufStep_accept B cap _ b hbl2 hbp (by rw [hput]), hput]
      refine ⟨?_, q, r + 1, by omega, by omega, by omega, hqc, htl, ?_, ?_⟩
      · show loopStep (envFull ((cap / B + 1) * B)) b.1 = _
        rw [hs, runLoop_succ_last]
      · show (b.2.buf ++ [(ran 0 b.1.seed1).1 % 256]).length = r + 1
        rw [List.length_append, hbl]
        rfl
      · show b.2.target ++ (b.2.buf ++ [(ran 0 b.1.seed1).1 % 256]) = _
        rw [← List.append_assoc, htb, hmod, genBytes_succ_last]
    · have hrB2 : r = B := by omega
      have hnq : n = (q + 1) * B := by
        rw [Nat.add_mul, Nat.one_mul]
        omega
      have hq1 : q + 1 < cap / B + 1 := by
        have : (q + 1) * B < (cap / B + 1) * B := by omega
        exact Nat.lt_of_mul_lt_mul_right this
      have hfit2 : (q + 1) * B ≤ cap := (Nat.le_div_iff_mul_le hB).1 (by omega)
      have hfit : b.2.target.length + b.2.buf.length ≤ cap := by
        rw [htl, hbl, hrB2]
        rw [Nat.add_mul, Nat.one_mul] at hfit2
        exact hfit2
      have hput := putc_flush_ok B cap b.2 (ran 0 b.1.seed1).1 hroom hfit
      rw [bufStep_accept B cap _ b hbl2 hbp (by rw [hput]), hput]
      refine ⟨?_, q + 1, 1, by omega, by omega, by omega, hfit2, ?_, rfl, ?_⟩
      · show loopStep (envFull ((cap / B + 1) * B)) b.1 = _
        rw [hs, runLoop_succ_last]
      · show (b.2.target ++ b.2.buf).length = (q + 1) * B
        rw [List.length_append, htl, hbl, hrB2, Nat.add_mul, Nat.one_mul]
      · show b.2.target ++ b.2.buf ++ [(ran 0 b.1.seed1).1 % 256] = _
        rw [htb, hmod, genBytes_succ_last]


/-- The capacity of the target lies below the number of bytes after which the stream first
has a full buffer that no longer fits. -/
theorem cap_lt_accepted (B cap : Nat) (hB : 0 < B) : cap < (cap / B + 1) * B := by
  have h1 := Nat.div_add_mod cap B
  have h2 := Nat.mod_lt cap hB
  rw [Nat.add_mul, Nat.one_mul, Nat.mul_comm (cap / B) B]
  omega

/-- After `(cap / B + 1) * B` accepted bytes the next `putc` meets a full buffer that the
target does not take whole: the loop is left and the target holds the first `cap`
generated bytes. -/
theorem bufRun_final (B cap : Nat) (hB : 0 < B) (s0 : Session)
    (hl : s0.status = Status.looping) (hp : s0.puts = 0) (hi : s0.i = 0)
    (h0 : 0 ≤ s0.seed1) (h1 : s0.seed1 < 259200) :
    bufRun B cap ((cap / B + 1) * B + 1) (s0, { buf := [], target := [] }) =
      (runLoop (envFull ((cap / B + 1) * B)) ((cap / B + 1) * B + 1) s0,
        { buf := [], target := genBytes cap s0.seed1 }) := by
  obtain ⟨hs, q, r, hqr, hrB, hr0, hqc, htl, hbl, htb⟩ :=
    bufRun_ok B cap hB s0 hl hp hi h0 h1 ((cap / B + 1) * B) (le_refl _)
  have hlt := cap_lt_accepted B cap hB
  have hok : ∀ k, k < (cap / B + 1) * B → (envFull ((cap / B + 1) * B)).putOk k = true := by
    intro k hk
    exact decide_eq_true hk
  obtain ⟨il, ip, _, _, _⟩ :=
    runLoop_ok (envFull ((cap / B + 1) * B)) s0 ((cap / B + 1) * B) hl hp hi h0 h1 hok
  have hrpos : 0 < r := hr0 (by omega)
  have hdvd : B ∣ r := by
    have hd : B ∣ q * B + r := ⟨cap / B + 1, by rw [← hqr, Nat.mul_comm]⟩
    exact (Nat.dvd_add_right (Dvd.intro_left q rfl)).1 hd
  have hrB2 : r = B := Nat.le_antisymm hrB (Nat.le_of_dvd hrpos hdvd)
  rw [bufRun_succ_last]
  generalize hb : bufRun B cap ((cap / B + 1) * B) (s0, { buf := [], target := [] }) = b
    at hs htl hbl htb
  have hbl2 : b.1.status = Status.looping := by rw [hs]; exact il
  have hbp : b.1.puts = (cap / B + 1) * B := by rw [hs]; exact ip
  have hfull : ¬ b.2.buf.length < B := by omega
  have hnofit : ¬ b.2.target.length + b.2.buf.length ≤ cap := by
    rw [htl, hbl]
    omega
  have hput := putc_flush_fail B cap b.2 (ran 0 b.1.seed1).1 hfull hnofit
  have htake : b.2.target ++ b.2.buf.take (cap - b.2.target.length) =
      genBytes cap s0.seed1 := by
    have ht : (b.2.target ++ b.2.buf).take cap =
        b.2.target ++ b.2.buf.take (cap - b.2.target.length) := by
      rw [List.take_append_eq_append_take, List.take_of_length_le (by omega)]
    rw [← ht, htb, genBytes_take cap _ _ (by omega)]
  rw [bufStep_reject B cap _ b hbl2 hbp (by rw [hput]), hput]
  have hfc : OutStream.fclose cap
      { buf := [], target := b.2.target ++ b.2.buf.take (cap - b.2.target.length) } =
      { buf := [], target := genBytes cap s0.seed1 } := by
    unfold OutStream.fclose OutStream.flush
    simp only [List.take_nil, List.append_nil]
    rw [htake]
  have hse : loopStep (envFull ((cap / B + 1) * B)) b.1 =
      runLoop (envFull ((cap / B + 1) * B)) ((cap / B + 1) * B + 1) s0 := by
    rw [hs, runLoop_succ_last]
  rw [hse]
  show (_, OutStream.fclose cap
      { buf := [], target := b.2.target ++ b.2.buf.take (cap - b.2.target.length) }) = _
  rw [hfc]

/-- C5, as stated, fails: with a stdio buffer of 4 bytes and a target that takes 1 byte,
`wipe testfile 42` has `putc` take the first 4 bytes and fail on the 5th, the session being
the one of `main` with 4 accepted writes; yet the target holds the single byte 176 and not
the first 4 outputs of the generator. -/
theorem C5_written_stream_counterexample :
    (bufMain 4 1 ["wipe", "testfile", "42"] 10).1 =
      main (envFull 4) ["wipe", "testfile", "42"] 10 ∧
    written (bufMain 4 1 ["wipe", "testfile", "42"] 10).1.trace = genBytes 4 (ran 42 0).2 ∧
    (bufMain 4 1 ["wipe", "testfile", "42"] 10).1.status = Status.returned ∧
    (bufMain 4 1 ["wipe", "testfile", "42"] 10).2.target = [176] ∧
    (bufMain 4 1 ["wipe", "testfile", "42"] 10).2.target ≠ genBytes 4 (ran 42 0).2 :=
  ⟨by decide!, by decide, by decide, by decide, by decide⟩

/-- C5 as amended: for every positive seed `s`, every buffer size `bufSize > 0` and every
target that takes `cap` bytes before its writes fail, the loop ends and the bytes on the
target are, in order, exactly the first `cap` outputs of the generator seeded with `s`.
At the `putc` interface the run is the one of `main` in which `putc` takes the first
`(cap / bufSize + 1) * bufSize` bytes, more than `cap`, and fails on the next; the bytes
taken beyond `cap` do not reach the target. -/
theorem C5_written_stream_amended (bufSize cap : Nat) (prog path arg : String) (s : Int)
    (fuel : Nat) (hB : 0 < bufSize) (harg : atoi arg = s) (hs : 0 < s)
    (hfuel : (cap / bufSize + 1) * bufSize + 1 ≤ fuel) :
    (bufMain bufSize cap [prog, path, arg] fuel).1.status = Status.returned ∧
    (bufMain bufSize cap [prog, path, arg] fuel).2.target = genBytes cap (ran s 0).2 ∧
    (bufMain bufSize cap [prog, path, arg] fuel).2.target.length = cap ∧
    (ran s 0).2 = (s + 54773) % 259200 ∧
    (bufMain bufSize cap [prog, path, arg] fuel).1 =
      main (envFull ((cap / bufSize + 1) * bufSize)) [prog, path, arg] fuel ∧
    written (bufMain bufSize cap [prog, path, arg] fuel).1.trace =
      genBytes ((cap / bufSize + 1) * bufSize) (ran s 0).2 ∧
    cap < (cap / bufSize + 1) * bufSize := by
  obtain ⟨k, rfl⟩ := Nat.exists_eq_add_of_le hfuel
  have hr := mainStart_seed1_range arg
  have hst0 := mainStart_open (envFull 0) prog path arg rfl
  have hstN := mainStart_open (envFull ((cap / bufSize + 1) * bufSize)) prog path arg rfl
  have hnot : (envFull ((cap / bufSize + 1) * bufSize)).putOk
      ((cap / bufSize + 1) * bufSize) = false := by
    show decide ((cap / bufSize + 1) * bufSize < (cap / bufSize + 1) * bufSize) = false
    simp
  have hat := written_stream_at_putc (envFull ((cap / bufSize + 1) * bufSize)) prog path arg
    s ((cap / bufSize + 1) * bufSize) ((cap / bufSize + 1) * bufSize + 1 + k) rfl harg hs
    (fun _ hk => decide_eq_true hk) hnot hfuel
  have hat1 := written_stream_at_putc (envFull ((cap / bufSize + 1) * bufSize)) prog path arg
    s ((cap / bufSize + 1) * bufSize) ((cap / bufSize + 1) * bufSize + 1) rfl harg hs
    (fun _ hk => decide_eq_true hk) hnot (le_refl _)
  have hfin := bufRun_final bufSize cap hB (mainStart (envFull 0) [prog, path, arg])
    (by rw [hst0]) (by rw [hst0]) (by rw [hst0]) (by rw [hst0]; exact hr.1)
    (by rw [hst0]; exact hr.2)
  have hstart : mainStart (envFull 0) [prog, path, arg] =
      mainStart (envFull ((cap / bufSize + 1) * bufSize)) [prog, path, arg] := by
    rw [hst0, hstN]
  have hs1 : (mainStart (envFull 0) [prog, path, arg]).seed1 = (ran s 0).2 := by
    rw [hst0, harg]
  have hstop : (main (envFull ((cap / bufSize + 1) * bufSize)) [prog, path, arg]
      ((cap / bufSize + 1) * bufSize + 1)).status ≠ Status.looping := by
    rw [hat1.2.2.2]
    simp
  have hmain : main (envFull ((cap / bufSize + 1) * bufSize)) [prog, path, arg]
      ((cap / bufSize + 1) * bufSize + 1 + k) =
      main (envFull ((cap / bufSize + 1) * bufSize)) [prog, path, arg]
        ((cap / bufSize + 1) * bufSize + 1) := by
    unfold main at hstop ⊢
    rw [runLoop_add, runLoop_stopped _ _ _ hstop]
  have hbuf : bufMain bufSize cap [prog, path, arg] ((cap / bufSize + 1) * bufSize + 1 + k) =
      (main (envFull ((cap / bufSize + 1) * bufSize)) [prog, path, arg]
          ((cap / bufSize + 1) * bufSize + 1 + k),
        { buf := [], target := genBytes cap (ran s 0).2 }) := by
    rw [hmain]
    unfold bufMain
    rw [bufRun_add, hfin, hs1, hstart]
    exact bufRun_stopped _ _ _ _ hstop
  rw [hbuf]
  refine ⟨hat.2.2.2, rfl, genBytes_length cap _, hat.2.1, rfl, hat.1,
    cap_lt_accepted bufSize cap hB⟩

/-- C5 as amended, for `wipe testfile 42` with a buffer of 4 bytes and a target that takes
9 bytes: `putc` takes 12 bytes and the target holds the first 9. -/
theorem C5_written_stream_amended_witness :
    (0 : Nat) < 4 ∧ atoi "42" = 42 ∧ (0 : Int) < 42 ∧
    (bufMain 4 9 ["wipe", "testfile", "42"] 20).2.target = genBytes 9 (ran 42 0).2 ∧
    written (bufMain 4 9 ["wipe", "testfile", "42"] 20).1.trace =
      genBytes ((9 / 4 + 1) * 4) (ran 42 0).2 :=
  ⟨by decide, by decide, by decide,
    (C5_written_stream_amended 4 9 "wipe" "testfile" "42" 42 20 (by decide) (by decide)
      (by decide) (by decide)).2.1,
    (C5_written_stream_amended 4 9 "wipe" "testfile" "42" 42 20 (by decide) (by decide)
      (by decide) (by decide)).2.2.2.2.2.1⟩

end Wipe
